import Mathlib

/-!
# Verification of the Figma-MCP normalization / token-inference / cache core

A shallow embedding of the repository's core modules:

* `mappers/node-mapper` — semantic role classification (`identifySemanticRole`
  and its three detection tiers), layout-strategy determination, grid
  detection, flexbox-rule extraction, and node normalization;
* `mappers/token-mapper` — typography-scale and spacing-system detection
  (`detectTypographyScale`, `detectSpacingSystem`, `findGCD`);
* `mappers/style-mapper` — font-weight normalization and the color
  hex round-trip (`rgbaToHex`, `hexToRgba`);
* `cache/memory-provider` and `cache/cache-manager` — the LRU+TTL in-memory
  store and its enable-gated manager.

JavaScript numbers are modelled as exact rationals (`ℚ`); `Math.round` is
round-half-up; `Math.trunc`-style integer division appears in the Euclidean
GCD over rationals.  JavaScript `Map`s are modelled as association lists in
insertion order with unique keys, and `Date.now()` is passed explicitly as a
parameter.  Optional / possibly-`undefined` properties are `Option` fields;
`undefined` and `null` are `none`.
-/

/-- JavaScript `Math.round`: round half toward positive infinity. -/
def jsRound (q : ℚ) : ℤ := ⌊q + 1 / 2⌋

/-- JavaScript `Math.trunc` (also the integer part used by the `%` operator):
truncation toward zero. -/
def jsTrunc (q : ℚ) : ℤ := if 0 ≤ q then ⌊q⌋ else ⌈q⌉

/-- JavaScript `%` on numbers (for a nonzero right operand):
`a % b = a - b * trunc(a / b)`. -/
def jsMod (a b : ℚ) : ℚ := a - b * (jsTrunc (a / b) : ℚ)

/-! ## JavaScript `Map` as an association list in insertion order -/

/-- `Map.get`: the value stored at the (unique) key, if any. -/
def jsMapGet {κ α : Type} [DecidableEq κ] (k : κ) : List (κ × α) → Option α
  | [] => none
  | (k2, v) :: rest => if k2 = k then some v else jsMapGet k rest

/-- `Map.has`. -/
def jsMapHas {κ α : Type} [DecidableEq κ] (k : κ) (l : List (κ × α)) : Bool :=
  (jsMapGet k l).isSome

/-- `Map.set`: overwrite in place if the key is present (keeping its
insertion position), otherwise append at the end. -/
def jsMapSet {κ α : Type} [DecidableEq κ] (k : κ) (v : α) : List (κ × α) → List (κ × α)
  | [] => [(k, v)]
  | (k2, v2) :: rest => if k2 = k then (k, v) :: rest else (k2, v2) :: jsMapSet k v rest

/-- `Map.delete`: remove the binding of the key, if present. -/
def jsMapDelete {κ α : Type} [DecidableEq κ] (k : κ) : List (κ × α) → List (κ × α)
  | [] => []
  | (k2, v2) :: rest => if k2 = k then rest else (k2, v2) :: jsMapDelete k rest

/-! ## `cache/memory-provider.ts` — `MemoryCacheProvider` -/

/-- `CacheEntry<T>` from `cache/types`: data, write timestamp (epoch ms) and
time-to-live in seconds. -/
structure CacheEntry (V : Type) where
  data : V
  timestamp : ℚ
  ttl : ℚ
deriving DecidableEq

/-- The state of a `MemoryCacheProvider`: the entry map, the LRU access-order
list (least recently used first), the capacity, and the hit/miss counters. -/
structure MemoryCache (V : Type) where
  cache : List (String × CacheEntry V)
  accessOrder : List String
  maxSize : ℕ
  hits : ℕ
  misses : ℕ
deriving DecidableEq

namespace MemoryCache

variable {V : Type}

/-- `updateAccessOrder`: remove the key then push it to the back
(most recently used). -/
def updateAccessOrder (k : String) (l : List String) : List String :=
  (l.erase k) ++ [k]

/-- `evictLRU`: drop the least-recently-used key (head of `accessOrder`)
from both structures; no-op on an empty access order. -/
def evictLRU (s : MemoryCache V) : MemoryCache V :=
  match s.accessOrder with
  | [] => s
  | lru :: rest => { s with cache := jsMapDelete lru s.cache, accessOrder := rest }

/-- `MemoryCacheProvider.get`, with `Date.now()` passed as `now`.  Misses on
an absent key; lazily expires (removes and misses) an entry whose age
exceeds `ttl * 1000` milliseconds; otherwise refreshes the access order,
counts a hit and returns the data. -/
def get (now : ℚ) (s : MemoryCache V) (k : String) : Option V × MemoryCache V :=
  match jsMapGet k s.cache with
  | none => (none, { s with misses := s.misses + 1 })
  | some e =>
    if e.ttl * 1000 < now - e.timestamp then
      (none, { s with
        cache := jsMapDelete k s.cache
        accessOrder := s.accessOrder.erase k
        misses := s.misses + 1 })
    else
      (some e.data, { s with
        accessOrder := updateAccessOrder k s.accessOrder
        hits := s.hits + 1 })

/-- `MemoryCacheProvider.set`: evict the LRU entry when the store is at
capacity and the key is new, then write the entry and refresh the access
order. -/
def set (now : ℚ) (s : MemoryCache V) (k : String) (v : V) (ttl : ℚ) : MemoryCache V :=
  let s1 := if s.maxSize ≤ s.cache.length ∧ jsMapHas k s.cache = false then evictLRU s else s
  { s1 with
    cache := jsMapSet k ⟨v, now, ttl⟩ s1.cache
    accessOrder := updateAccessOrder k s1.accessOrder }

/-- `MemoryCacheProvider.delete`. -/
def delete (s : MemoryCache V) (k : String) : MemoryCache V :=
  { s with cache := jsMapDelete k s.cache, accessOrder := s.accessOrder.erase k }

/-- `MemoryCacheProvider.clear`: drop all entries and reset statistics. -/
def clear (s : MemoryCache V) : MemoryCache V :=
  { s with cache := [], accessOrder := [], hits := 0, misses := 0 }

end MemoryCache

/-- The anchored regular expression produced by `patternToRegex` applied to a
key: every character of the pattern is matched literally except `*`, which
matches any (possibly empty) substring (`.*`). -/
def globMatchAux : List Char → List Char → Bool
  | [], [] => true
  | [], _ :: _ => false
  | '*' :: ps, [] => globMatchAux ps []
  | '*' :: ps, c :: ks => globMatchAux ps (c :: ks) || globMatchAux ('*' :: ps) ks
  | _ :: _, [] => false
  | p :: ps, c :: ks => p == c && globMatchAux ps ks
termination_by ps ks => (ks.length, ps.length)

/-- `patternToRegex(pattern).test(key)`. -/
def globMatch (pattern key : String) : Bool :=
  globMatchAux pattern.toList key.toList

namespace MemoryCache

variable {V : Type}

/-- `MemoryCacheProvider.invalidate`: delete every entry whose key matches
the glob pattern and return how many were removed. -/
def invalidate (s : MemoryCache V) (pattern : String) : ℕ × MemoryCache V :=
  let ks := (s.cache.map Prod.fst).filter (fun k => globMatch pattern k)
  (ks.length,
   { s with
     cache := ks.foldl (fun c k => jsMapDelete k c) s.cache
     accessOrder := ks.foldl (fun l k => l.erase k) s.accessOrder })

end MemoryCache

/-! ## `cache/cache-manager.ts` — `CacheManager` -/

/-- The `ttlByType` table of `CacheConfig`. -/
structure TTLByType where
  file : ℚ
  components : ℚ
  tokens : ℚ
  plan : ℚ
deriving DecidableEq

/-- A key of the `ttlByType` table. -/
inductive TTLType
  | file
  | components
  | tokens
  | plan
deriving DecidableEq

/-- Look a `TTLType` up in the table. -/
def TTLByType.get (t : TTLByType) : TTLType → ℚ
  | .file => t.file
  | .components => t.components
  | .tokens => t.tokens
  | .plan => t.plan

/-- `CacheConfig`. -/
structure CacheConfig where
  enabled : Bool
  defaultTTL : ℚ
  maxSize : ℕ
  ttlByType : TTLByType
deriving DecidableEq

/-- A `CacheManager` together with the state of its (memory) provider. -/
structure CacheManager (V : Type) where
  config : CacheConfig
  provider : MemoryCache V
deriving DecidableEq

namespace CacheManager

variable {V : Type}

/-- `CacheManager.get`: a miss without touching the provider when caching is
disabled, otherwise the provider's `get`. -/
def get (now : ℚ) (m : CacheManager V) (k : String) : Option V × MemoryCache V :=
  if m.config.enabled = false then (none, m.provider)
  else MemoryCache.get now m.provider k

/-- `CacheManager.set`: a no-op when caching is disabled, otherwise the
provider's `set` with the type-specific (or default) TTL. -/
def set (now : ℚ) (m : CacheManager V) (k : String) (v : V) (ty : Option TTLType) :
    MemoryCache V :=
  if m.config.enabled = false then m.provider
  else
    let ttl := match ty with
      | some t => m.config.ttlByType.get t
      | none => m.config.defaultTTL
    MemoryCache.set now m.provider k v ttl

/-- `CacheManager.delete`: always forwarded to the provider. -/
def delete (m : CacheManager V) (k : String) : MemoryCache V :=
  MemoryCache.delete m.provider k

/-- `CacheManager.invalidate`: always forwarded to the provider. -/
def invalidate (m : CacheManager V) (pattern : String) : ℕ × MemoryCache V :=
  MemoryCache.invalidate m.provider pattern

/-- `CacheManager.clear`: always forwarded to the provider. -/
def clear (m : CacheManager V) : MemoryCache V :=
  MemoryCache.clear m.provider

end CacheManager

/-! ## Raw Figma node model (`types/figma-api`, `types/figma-base`) -/

/-- The raw node `type` tags that the mappers inspect. -/
inductive RawType
  | FRAME
  | CANVAS
  | TEXT
  | RECTANGLE
  | ELLIPSE
  | VECTOR
  | STAR
  | LINE
  | GROUP
  | COMPONENT
  | COMPONENT_SET
  | INSTANCE
  | SECTION
  | DOCUMENT
deriving DecidableEq

/-- RGBA color with channels in `[0,1]` (`FigmaColor` / `Color`). -/
structure Color where
  r : ℚ
  g : ℚ
  b : ℚ
  a : ℚ
deriving DecidableEq

/-- A paint (fill or stroke): the mappers only inspect its `type` tag and
optional solid `color`. -/
structure Paint where
  ptype : String
  color : Option Color := none
deriving DecidableEq

/-- `absoluteBoundingBox`. -/
structure Rect where
  x : ℚ
  y : ℚ
  width : ℚ
  height : ℚ
deriving DecidableEq

/-- `TypeStyle` (the fields the mappers read; all required in the source
interface). -/
structure TypeStyle where
  fontFamily : String
  fontWeight : ℚ
  fontSize : ℚ
  textAlignHorizontal : String
  letterSpacing : ℚ
  lineHeightPx : ℚ
deriving DecidableEq

/-- The non-recursive properties of a raw node.  `Option` fields model
properties that may be absent (`undefined`) on the node object. -/
structure NodeCore where
  id : String
  name : String
  ntype : RawType
  visible : Option Bool := none
  fills : Option (List Paint) := none
  strokes : Option (List Paint) := none
  backgroundColor : Option Color := none
  absoluteBoundingBox : Option Rect := none
  layoutMode : Option String := none
  primaryAxisAlignItems : Option String := none
  counterAxisAlignItems : Option String := none
  itemSpacing : Option ℚ := none
  paddingTop : Option ℚ := none
  paddingRight : Option ℚ := none
  paddingBottom : Option ℚ := none
  paddingLeft : Option ℚ := none
  clipsContent : Option Bool := none
  style : Option TypeStyle := none
  characters : Option String := none
  opacity : Option ℚ := none
  strokeWeight : Option ℚ := none
  cornerRadius : Option ℚ := none
  description : Option String := none
deriving DecidableEq

/-- A raw Figma node: its own properties plus an optional `children` array. -/
inductive FigmaNode
  | node (core : NodeCore) (children : Option (List FigmaNode))

namespace FigmaNode

def core : FigmaNode → NodeCore
  | .node c _ => c

def children : FigmaNode → Option (List FigmaNode)
  | .node _ cs => cs

def id (n : FigmaNode) : String := n.core.id
def name (n : FigmaNode) : String := n.core.name
def ntype (n : FigmaNode) : RawType := n.core.ntype
def visible (n : FigmaNode) : Option Bool := n.core.visible
def fills (n : FigmaNode) : Option (List Paint) := n.core.fills
def strokes (n : FigmaNode) : Option (List Paint) := n.core.strokes
def backgroundColor (n : FigmaNode) : Option Color := n.core.backgroundColor
def absoluteBoundingBox (n : FigmaNode) : Option Rect := n.core.absoluteBoundingBox
def layoutMode (n : FigmaNode) : Option String := n.core.layoutMode
def primaryAxisAlignItems (n : FigmaNode) : Option String := n.core.primaryAxisAlignItems
def counterAxisAlignItems (n : FigmaNode) : Option String := n.core.counterAxisAlignItems
def itemSpacing (n : FigmaNode) : Option ℚ := n.core.itemSpacing
def paddingTop (n : FigmaNode) : Option ℚ := n.core.paddingTop
def paddingRight (n : FigmaNode) : Option ℚ := n.core.paddingRight
def paddingBottom (n : FigmaNode) : Option ℚ := n.core.paddingBottom
def paddingLeft (n : FigmaNode) : Option ℚ := n.core.paddingLeft
def clipsContent (n : FigmaNode) : Option Bool := n.core.clipsContent
def style (n : FigmaNode) : Option TypeStyle := n.core.style
def characters (n : FigmaNode) : Option String := n.core.characters

end FigmaNode

/-! ## Normalized model (`types/normalized`) -/

/-- `SemanticRole` (the members the classifier can produce). -/
inductive SemanticRole
  | button
  | input
  | card
  | list
  | navigation
  | header
  | footer
  | modal
  | icon
  | avatar
  | badge
  | text
  | container
  | unknown
deriving DecidableEq

/-- The string value of a `SemanticRole` (used in reasoning messages). -/
def SemanticRole.str : SemanticRole → String
  | .button => "button"
  | .input => "input"
  | .card => "card"
  | .list => "list"
  | .navigation => "navigation"
  | .header => "header"
  | .footer => "footer"
  | .modal => "modal"
  | .icon => "icon"
  | .avatar => "avatar"
  | .badge => "badge"
  | .text => "text"
  | .container => "container"
  | .unknown => "unknown"

/-- `detectionMethod` of a `RoleDetectionResult`. -/
inductive DetectionMethod
  | componentType
  | structural
  | naming
  | hybrid
deriving DecidableEq

/-- `RoleDetectionResult`. -/
structure RoleDetectionResult where
  role : SemanticRole
  confidence : ℚ
  detectionMethod : DetectionMethod
  reasoning : String
deriving DecidableEq

/-- `justifyContent` values of `FlexboxRules`. -/
inductive JustifyContent
  | flexStart
  | center
  | flexEnd
  | spaceBetween
  | spaceAround
  | spaceEvenly
deriving DecidableEq

/-- `alignItems` values of `FlexboxRules`. -/
inductive AlignItems
  | flexStart
  | center
  | flexEnd
  | stretch
  | baseline
deriving DecidableEq

/-- `direction` values of `FlexboxRules`. -/
inductive FlexDirection
  | row
  | column
deriving DecidableEq

/-- The `padding` block of `FlexboxRules`. -/
structure Padding where
  top : ℚ
  right : ℚ
  bottom : ℚ
  left : ℚ
deriving DecidableEq

/-- `FlexboxRules`. -/
structure FlexboxRules where
  direction : FlexDirection
  justifyContent : JustifyContent
  alignItems : AlignItems
  gap : ℚ
  padding : Option Padding
deriving DecidableEq

/-- `LayoutStrategy`. -/
inductive LayoutStrategy
  | flexbox
  | gridCandidate
  | absolute
  | noLayout
deriving DecidableEq

/-- `GridCandidate` metadata. -/
structure GridCandidate where
  columns : ℕ
  rows : ℕ
  columnGap : ℤ
  rowGap : ℤ
  isUniform : Bool
deriving DecidableEq

/-- Width/height pair. -/
structure Dimensions where
  width : ℚ
  height : ℚ
deriving DecidableEq

/-- `LayoutContainer` payload (without `id`/`name`, as produced by
`extractLayoutIntent`). -/
structure LayoutContainer where
  strategy : LayoutStrategy
  flexbox : Option FlexboxRules := none
  grid : Option GridCandidate := none
  children : List String
  clipsContent : Bool
  dimensions : Dimensions
deriving DecidableEq

/-! ## `mappers/node-mapper.ts` — helpers and type guards -/

/-- ASCII lower-casing of a character (`String.prototype.toLowerCase`
restricted to ASCII, which covers the keyword table). -/
def jsCharToLower (c : Char) : Char :=
  if 'A' ≤ c ∧ c ≤ 'Z' then Char.ofNat (c.toNat + 32) else c

/-- ASCII upper-casing of a character. -/
def jsCharToUpper (c : Char) : Char :=
  if 'a' ≤ c ∧ c ≤ 'z' then Char.ofNat (c.toNat - 32) else c

/-- `name.toLowerCase()` (ASCII). -/
def jsToLower (s : String) : String := String.mk (s.toList.map jsCharToLower)

/-- Prefix test on character lists. -/
def isPrefixB : List Char → List Char → Bool
  | [], _ => true
  | _ :: _, [] => false
  | a :: as, b :: bs => a == b && isPrefixB as bs

/-- Substring occurrence on character lists. -/
def isInfixB (sub : List Char) : List Char → Bool
  | [] => sub.isEmpty
  | c :: cs => isPrefixB sub (c :: cs) || isInfixB sub cs

/-- `name.includes(sub)` — substring test. -/
def jsIncludes (s sub : String) : Bool :=
  isInfixB sub.toList s.toList

/-- JS truthiness of an optional number (`undefined` and `0` are falsy). -/
def truthyQ (o : Option ℚ) : Bool :=
  match o with
  | some x => x != 0
  | none => false

/-- JS truthiness of an optional string (`undefined` and `""` are falsy). -/
def truthyStr (o : Option String) : Bool :=
  match o with
  | some s => s != ""
  | none => false

/-- `isLayoutNode`. -/
def isLayoutNode (n : FigmaNode) : Bool :=
  n.ntype == .FRAME || n.ntype == .CANVAS

/-- `isComponentNode`. -/
def isComponentNode (n : FigmaNode) : Bool :=
  n.ntype == .COMPONENT || n.ntype == .COMPONENT_SET || n.ntype == .INSTANCE

/-- `isVisualNode`. -/
def isVisualNode (n : FigmaNode) : Bool :=
  [RawType.RECTANGLE, .ELLIPSE, .VECTOR, .STAR, .LINE].contains n.ntype

/-- `hasBackground`: a non-empty `fills` array or a `backgroundColor`. -/
def hasBackground (n : FigmaNode) : Bool :=
  (match n.fills with
   | some l => !l.isEmpty
   | none => false) || n.backgroundColor.isSome

/-- `hasStroke`: a non-empty `strokes` array. -/
def hasStroke (n : FigmaNode) : Bool :=
  match n.strokes with
  | some l => !l.isEmpty
  | none => false

/-- `hasFrame`: the node has an `absoluteBoundingBox`. -/
def hasFrame (n : FigmaNode) : Bool :=
  n.absoluteBoundingBox.isSome

/-! ## `mappers/node-mapper.ts` — semantic role classifier -/

/-- `detectFromComponentType` (tier 1): component-like nodes are weak
`container` evidence at confidence 0.6. -/
def detectFromComponentType (n : FigmaNode) : Option RoleDetectionResult :=
  if n.ntype = .COMPONENT ∨ n.ntype = .COMPONENT_SET ∨ n.ntype = .INSTANCE then
    some ⟨.container, 3 / 5, .componentType, "Figma component"⟩
  else none

/-- `detectFromStructure` (tier 2): shape-based patterns, in source order
(button, input, list, card), with leaf-node cases first. -/
def detectFromStructure (n : FigmaNode) : Option RoleDetectionResult :=
  match n.children with
  | none =>
    -- leaf nodes (no `children` property / falsy children)
    if n.ntype = .TEXT then
      some ⟨.text, 9 / 10, .structural, "Text node"⟩
    else if n.ntype = .RECTANGLE ∨ n.ntype = .ELLIPSE then
      some ⟨.container, 1 / 2, .structural, "Simple shape"⟩
    else none
  | some children =>
    let childTypes := children.map FigmaNode.ntype
    -- button pattern: background + text (+ optional icon), at most 3 children
    if hasBackground n ∧ childTypes.contains .TEXT ∧ children.length ≤ 3 then
      let hasIcon := childTypes.any (fun t => t == .VECTOR || t == .ELLIPSE)
      some ⟨.button, if hasIcon then 17 / 20 else 3 / 4, .structural,
        "Background + text" ++ (if hasIcon then " + icon" else "") ++ " suggests button"⟩
    -- input pattern: frame with border + text, at most 2 children
    else if n.ntype = .FRAME ∧ hasFrame n ∧ childTypes.contains .TEXT ∧ hasStroke n ∧
        children.length ≤ 2 then
      some ⟨.input, 4 / 5, .structural, "Frame with border + text suggests input field"⟩
    -- list pattern: at least 3 children all of the same type in a frame/group
    else if 3 ≤ children.length ∧
        (match childTypes with
         | [] => true
         | t0 :: _ => childTypes.all (fun t => t == t0)) = true ∧
        (n.ntype = .FRAME ∨ n.ntype = .GROUP) then
      some ⟨.list, 7 / 10, .structural,
        toString children.length ++ " repeated elements suggest list"⟩
    -- card pattern: background + mixed text/visual content
    else if 2 ≤ children.length ∧ hasBackground n ∧ childTypes.contains .TEXT ∧
        childTypes.any (fun t => [RawType.RECTANGLE, .ELLIPSE, .VECTOR].contains t) then
      some ⟨.card, 13 / 20, .structural,
        "Container with background, text, and visuals suggests card"⟩
    else none

/-- The keyword table of `detectFromNaming`, in source order. -/
def namingPatterns : List (List String × SemanticRole) :=
  [(["btn", "button"], .button),
   (["input", "field", "textbox"], .input),
   (["card"], .card),
   (["list"], .list),
   (["nav", "navigation"], .navigation),
   (["header"], .header),
   (["footer"], .footer),
   (["modal", "dialog"], .modal),
   (["icon"], .icon),
   (["avatar"], .avatar),
   (["badge"], .badge)]

/-- `detectFromNaming` (tier 3): first pattern whose keyword occurs in the
lower-cased node name, at fixed confidence 0.4. -/
def detectFromNaming (n : FigmaNode) : Option RoleDetectionResult :=
  let nm := jsToLower n.name
  (namingPatterns.find? (fun p => p.1.any (fun kw => jsIncludes nm kw))).map
    (fun p => ⟨p.2, 2 / 5, .naming,
      "Name \"" ++ n.name ++ "\" matches pattern for " ++ p.2.str⟩)

/-- The tail of `identifySemanticRole` after the component-type early return:
structural short-circuit above 0.7, hybrid/override combination with the
naming tier, then the `structural || component-type || naming || unknown`
fallback. -/
def identifySemanticRoleRest
    (structuralRole namingRole componentTypeRole : Option RoleDetectionResult) :
    RoleDetectionResult :=
  match structuralRole, namingRole with
  | some s, some nr =>
    if 7 / 10 < s.confidence then s
    else if s.role = nr.role then
      ⟨s.role, min (s.confidence + 1 / 5) 1, .hybrid,
        "Structural analysis and naming both suggest " ++ s.role.str⟩
    else
      { s with
        detectionMethod := .structural
        reasoning := "Structural pattern (" ++ s.role.str ++ ") overrides naming hint (" ++
          nr.role.str ++ ")" }
  | some s, none => s
  | none, some nr => componentTypeRole.getD nr
  | none, none =>
    componentTypeRole.getD ⟨.unknown, 0, .hybrid, "No semantic role detected"⟩

/-- `identifySemanticRole`: component-type tier short-circuits above 0.7,
then the structural/naming combination. -/
def identifySemanticRole (n : FigmaNode) : RoleDetectionResult :=
  let componentTypeRole := detectFromComponentType n
  match componentTypeRole with
  | some c =>
    if 7 / 10 < c.confidence then c
    else identifySemanticRoleRest (detectFromStructure n) (detectFromNaming n) componentTypeRole
  | none =>
    identifySemanticRoleRest (detectFromStructure n) (detectFromNaming n) none

/-! ## `mappers/node-mapper.ts` — layout extraction -/

/-- Insert into an ascending list (used to model
`Array.prototype.sort((a, b) => a - b)` on distinct numbers). -/
def insertAsc (x : ℤ) : List ℤ → List ℤ
  | [] => [x]
  | y :: ys => if x ≤ y then x :: y :: ys else y :: insertAsc x ys

/-- Numeric ascending sort, `xs.sort((a, b) => a - b)`. -/
def sortAsc (l : List ℤ) : List ℤ := l.foldr insertAsc []

/-- `mapPrimaryAxisAlign` (node-mapper): the `justify-content` lookup table.
The table has entries only for `MIN`, `CENTER`, `MAX` and `SPACE_BETWEEN`;
everything else (including `SPACE_AROUND` and `SPACE_EVENLY`, and an absent
property) falls back to `flex-start`. -/
def mapPrimaryAxisAlign (n : FigmaNode) : JustifyContent :=
  match n.primaryAxisAlignItems with
  | some "MIN" => .flexStart
  | some "CENTER" => .center
  | some "MAX" => .flexEnd
  | some "SPACE_BETWEEN" => .spaceBetween
  | _ => .flexStart

/-- `mapCounterAxisAlign` (node-mapper): the `align-items` lookup table with
fallback `stretch`. -/
def mapCounterAxisAlign (n : FigmaNode) : AlignItems :=
  match n.counterAxisAlignItems with
  | some "MIN" => .flexStart
  | some "CENTER" => .center
  | some "MAX" => .flexEnd
  | _ => .stretch

/-- `extractPadding` (node-mapper): present only when one of the four raw
padding values is truthy (present and non-zero). -/
def extractPadding (n : FigmaNode) : Option Padding :=
  if truthyQ n.paddingTop || truthyQ n.paddingRight || truthyQ n.paddingBottom ||
      truthyQ n.paddingLeft then
    some ⟨(n.paddingTop).getD 0, (n.paddingRight).getD 0, (n.paddingBottom).getD 0,
      (n.paddingLeft).getD 0⟩
  else none

/-- `extractFlexboxRules` (node-mapper). -/
def extractFlexboxRules (n : FigmaNode) : FlexboxRules :=
  { direction := if n.layoutMode = some "HORIZONTAL" then .row else .column
    justifyContent := mapPrimaryAxisAlign n
    alignItems := mapCounterAxisAlign n
    gap := (n.itemSpacing).getD 0
    padding := extractPadding n }

/-- `hasGridPattern`: at least 4 children with bounding boxes and at least
2 distinct rounded positions on each axis. -/
def hasGridPattern (n : FigmaNode) : Bool :=
  match n.children with
  | none => false
  | some children =>
    if children.length < 4 then false
    else
      let positions := children.filterMap FigmaNode.absoluteBoundingBox
      if positions.length < 4 then false
      else
        let uniqueX := (positions.map (fun p => jsRound p.x)).dedup
        let uniqueY := (positions.map (fun p => jsRound p.y)).dedup
        decide (2 ≤ uniqueX.length ∧ 2 ≤ uniqueY.length)

/-- `detectGridPattern`: columns/rows are the numbers of distinct rounded
X/Y positions, gaps are the differences of the first two sorted distinct
coordinates, and `isUniform` is always asserted. -/
def detectGridPattern (n : FigmaNode) : Option GridCandidate :=
  match n.children with
  | none => none
  | some children =>
    let positions := children.filterMap FigmaNode.absoluteBoundingBox
    let xPositions := sortAsc ((positions.map (fun p => jsRound p.x)).dedup)
    let yPositions := sortAsc ((positions.map (fun p => jsRound p.y)).dedup)
    let columnGap := match xPositions with
      | x0 :: x1 :: _ => x1 - x0
      | _ => 0
    let rowGap := match yPositions with
      | y0 :: y1 :: _ => y1 - y0
      | _ => 0
    some ⟨xPositions.length, yPositions.length, columnGap, rowGap, true⟩

/-- `determineLayoutStrategy`: `none` without an auto-layout mode; grid check
for `HORIZONTAL`/`VERTICAL`, else flexbox. -/
def determineLayoutStrategy (n : FigmaNode) : LayoutStrategy :=
  match n.layoutMode with
  | none => .noLayout
  | some m =>
    if m = "HORIZONTAL" ∨ m = "VERTICAL" then
      if n.children.isSome ∧ hasGridPattern n = true then .gridCandidate
      else .flexbox
    else .noLayout

/-- `extractLayoutIntent`. -/
def extractLayoutIntent (n : FigmaNode) : LayoutContainer :=
  let strategy := determineLayoutStrategy n
  let dimensions : Dimensions := match n.absoluteBoundingBox with
    | some b => ⟨b.width, b.height⟩
    | none => ⟨0, 0⟩
  { strategy := strategy
    children := ((n.children).getD []).map FigmaNode.id
    clipsContent := (n.clipsContent).getD false
    dimensions := dimensions
    flexbox :=
      if strategy = .flexbox ∧ truthyStr n.layoutMode = true then
        some (extractFlexboxRules n)
      else none
    grid :=
      if strategy = .gridCandidate ∧ n.children.isSome ∧ n.ntype = .FRAME then
        detectGridPattern n
      else none }

/-! ## `mappers/node-mapper.ts` — text / visual / component extraction -/

/-- Semantic typography levels (`TypographyIntent['semanticLevel']`). -/
inductive SemanticLevel
  | h1 | h2 | h3 | h4 | h5 | h6 | body | caption | label
deriving DecidableEq

/-- The string value of a semantic level (the token name it yields). -/
def SemanticLevel.str : SemanticLevel → String
  | .h1 => "h1"
  | .h2 => "h2"
  | .h3 => "h3"
  | .h4 => "h4"
  | .h5 => "h5"
  | .h6 => "h6"
  | .body => "body"
  | .caption => "caption"
  | .label => "label"

/-- `TypographyIntent`. -/
structure TypographyIntent where
  fontFamily : String
  fontSize : ℚ
  fontWeight : ℚ
  lineHeight : ℚ
  letterSpacing : ℚ
  textAlign : String
  semanticLevel : Option SemanticLevel := none
deriving DecidableEq

/-- `extractTypographyFromNode` (node-mapper): fixed defaults without style
data, otherwise the raw style values copied verbatim.  Neither branch sets a
`semanticLevel`. -/
def extractTypographyFromNode (n : FigmaNode) : TypographyIntent :=
  match n.style with
  | none => ⟨"sans-serif", 14, 400, 20, 0, "LEFT", none⟩
  | some st =>
    ⟨st.fontFamily, st.fontSize, st.fontWeight, st.lineHeightPx, st.letterSpacing,
      st.textAlignHorizontal, none⟩

/-- `extractTextColor`: the color of a first solid fill. -/
def extractTextColor (n : FigmaNode) : Option Color :=
  match n.fills with
  | none => none
  | some [] => none
  | some (fill :: _) => if fill.ptype = "SOLID" then fill.color else none

/-- `TextElement` payload (without `id`/`name`). -/
structure TextElement where
  content : String
  typography : TypographyIntent
  color : Option Color
  isTruncated : Bool
deriving DecidableEq

/-- `extractTextElement`. -/
def extractTextElement (n : FigmaNode) : TextElement :=
  { content := (n.characters).getD ""
    typography := extractTypographyFromNode n
    color := extractTextColor n
    isTruncated := false }

/-- `ComponentReuse`. -/
structure ComponentReuse where
  rootComponentId : String
  rootComponentName : String
  nestingPath : List String
  nestingDepth : ℕ
  instanceCount : ℕ
  isPrimitive : Bool
deriving DecidableEq

/-- `ComponentInstance` payload (without `id`/`name`). -/
structure ComponentInstance where
  componentType : String
  description : Option String
  reuse : ComponentReuse
  children : List String
  dimensions : Dimensions
deriving DecidableEq

/-- `extractComponentInstance`. -/
def extractComponentInstance (n : FigmaNode) (ctx : Option ComponentReuse) :
    ComponentInstance :=
  { componentType :=
      if n.ntype = .COMPONENT then "component"
      else if n.ntype = .COMPONENT_SET then "component-set"
      else "instance"
    description := n.core.description
    reuse := ctx.getD ⟨n.id, n.name, [n.id], 0, 1, false⟩
    children := ((n.children).getD []).map FigmaNode.id
    dimensions := match n.absoluteBoundingBox with
      | some b => ⟨b.width, b.height⟩
      | none => ⟨0, 0⟩ }

/-- A border in `VisualIntent`. -/
structure Border where
  color : Color
  width : ℚ
  radius : ℚ
deriving DecidableEq

/-- `VisualIntent` (shadow omitted from the model: no `effects` consumer is
involved in any verified property; it is `undefined` whenever `effects` is
absent, which is the case for every node constructed in this file). -/
structure VisualIntent where
  backgroundColor : Option Color
  border : Option Border
  opacity : ℚ
deriving DecidableEq

/-- `extractBackgroundColor`. -/
def extractBackgroundColor (n : FigmaNode) : Option Color :=
  match n.fills with
  | some (fill :: _) => if fill.ptype = "SOLID" then fill.color else n.backgroundColor
  | _ => n.backgroundColor

/-- `extractBorder`. -/
def extractBorder (n : FigmaNode) : Option Border :=
  match n.strokes with
  | some (stroke :: _) =>
    if stroke.ptype = "SOLID" then
      (stroke.color).map (fun c => ⟨c, (n.core.strokeWeight).getD 1, (n.core.cornerRadius).getD 0⟩)
    else none
  | _ => none

/-- `extractVisualIntent`. -/
def extractVisualIntent (n : FigmaNode) : VisualIntent :=
  { backgroundColor := extractBackgroundColor n
    border := extractBorder n
    opacity := (n.core.opacity).getD 1 }

/-- `VisualElement` payload (without `id`/`name`). -/
structure VisualElement where
  vtype : String
  visual : VisualIntent
  dimensions : Dimensions
deriving DecidableEq

/-- `mapNodeTypeToVisualType`. -/
def mapNodeTypeToVisualType (t : RawType) : String :=
  match t with
  | .RECTANGLE => "rectangle"
  | .ELLIPSE => "ellipse"
  | .VECTOR => "vector"
  | .STAR => "icon"
  | .LINE => "vector"
  | _ => "rectangle"

/-- `extractVisualElement`. -/
def extractVisualElement (n : FigmaNode) : VisualElement :=
  { vtype := mapNodeTypeToVisualType n.ntype
    visual := extractVisualIntent n
    dimensions := match n.absoluteBoundingBox with
      | some b => ⟨b.width, b.height⟩
      | none => ⟨0, 0⟩ }

/-! ## `mappers/node-mapper.ts` — `normalizeNode` -/

/-- The discriminated `data` payload of a `NormalizedNode`. -/
inductive NodeData
  | layout (d : LayoutContainer)
  | text (d : TextElement)
  | component (d : ComponentInstance)
  | visual (d : VisualElement)
deriving DecidableEq

/-- The `nodeType` discriminant string. -/
def NodeData.nodeType : NodeData → String
  | .layout _ => "layout"
  | .text _ => "text"
  | .component _ => "component"
  | .visual _ => "visual"

/-- `NormalizedNode`. -/
structure NormalizedNode where
  id : String
  name : String
  originalType : RawType
  semanticRole : RoleDetectionResult
  parentId : Option String
  visible : Bool
  data : NodeData
deriving DecidableEq

/-- `normalizeNode`: `null` for invisible nodes; dispatch layout → text →
component → visual; unknown types with children degrade to an empty layout
container; childless unknown types are dropped. -/
def normalizeNode (n : FigmaNode) (parentId : Option String)
    (componentContext : Option ComponentReuse) : Option NormalizedNode :=
  if n.visible = some false then none
  else
    let semanticRole := identifySemanticRole n
    let mk : NodeData → NormalizedNode := fun d =>
      { id := n.id
        name := n.name
        originalType := n.ntype
        semanticRole := semanticRole
        parentId := parentId
        visible := (n.visible).getD true
        data := d }
    if isLayoutNode n then some (mk (.layout (extractLayoutIntent n)))
    else if n.ntype = .TEXT then some (mk (.text (extractTextElement n)))
    else if isComponentNode n then
      some (mk (.component (extractComponentInstance n componentContext)))
    else if isVisualNode n then some (mk (.visual (extractVisualElement n)))
    else
      match n.children with
      | some cs =>
        some (mk (.layout
          { strategy := .noLayout
            children := cs.map FigmaNode.id
            clipsContent := false
            dimensions := ⟨0, 0⟩ }))
      | none => none

/-! ## `mappers/style-mapper.ts` -/

/-- `normalizeFontWeight` (style-mapper): round to the nearest multiple of
100 and clamp into `[100, 900]`. -/
def normalizeFontWeight (weight : ℚ) : ℚ :=
  let rounded : ℚ := (jsRound (weight / 100) : ℚ) * 100
  max 100 (min 900 rounded)

/-- `extractTypography` (style-mapper): unlike the node-mapper variant it
normalizes the font weight and derives a `semanticLevel`. -/
def detectSemanticLevel (fontSize fontWeight : ℚ) : SemanticLevel :=
  if 32 ≤ fontSize ∧ 600 ≤ fontWeight then .h1
  else if 28 ≤ fontSize ∧ 600 ≤ fontWeight then .h2
  else if 24 ≤ fontSize ∧ 600 ≤ fontWeight then .h3
  else if 20 ≤ fontSize ∧ 600 ≤ fontWeight then .h4
  else if 18 ≤ fontSize ∧ 600 ≤ fontWeight then .h5
  else if 16 ≤ fontSize ∧ 600 ≤ fontWeight then .h6
  else if 16 ≤ fontSize then .body
  else if 12 ≤ fontSize then .caption
  else .label

/-- `extractTypography` (style-mapper). -/
def extractTypography (n : FigmaNode) : TypographyIntent :=
  match n.style with
  | none => ⟨"sans-serif", 14, 400, 20, 0, "LEFT", none⟩
  | some st =>
    ⟨st.fontFamily, st.fontSize, normalizeFontWeight st.fontWeight, st.lineHeightPx,
      st.letterSpacing, st.textAlignHorizontal,
      some (detectSemanticLevel st.fontSize st.fontWeight)⟩

/-- `mapPrimaryAxisAlignment` (style-mapper, used by
`translateAutoLayoutToFlexbox`): the full six-entry `justify-content` table,
including `SPACE_AROUND` and `SPACE_EVENLY`. -/
def mapPrimaryAxisAlignment (n : FigmaNode) : JustifyContent :=
  match n.primaryAxisAlignItems with
  | some "MIN" => .flexStart
  | some "CENTER" => .center
  | some "MAX" => .flexEnd
  | some "SPACE_BETWEEN" => .spaceBetween
  | some "SPACE_AROUND" => .spaceAround
  | some "SPACE_EVENLY" => .spaceEvenly
  | _ => .flexStart

/-! ### Color hex round-trip (`rgbaToHex` / `hexToRgba`) -/

/-- The sixteen hexadecimal digit characters (upper-case, as produced by
`toString(16)` followed by `toUpperCase`). -/
def hexDigits : List Char := "0123456789ABCDEF".toList

/-- The hexadecimal digit character for a value below 16. -/
def hexDigitChar (v : ℕ) : Char := hexDigits.getD v '0'

/-- `n.toString(16).padStart(2, '0')` (upper-cased) for a byte value
`0 ≤ n ≤ 255`: exactly two hexadecimal digits. -/
def toHexByte (v : ℕ) : List Char := [hexDigitChar (v / 16), hexDigitChar (v % 16)]

/-- The channel byte `Math.round(channel * 255)` of `rgbaToHex` (for channels
in `[0, 1]` this is in `[0, 255]`). -/
def channelByte (c : ℚ) : ℕ := (jsRound (c * 255)).toNat

/-- `rgbaToHex`: `#RRGGBB`, with an `AA` suffix only when `a < 1`. -/
def rgbaToHex (c : Color) : String :=
  let rgb := toHexByte (channelByte c.r) ++ toHexByte (channelByte c.g) ++
    toHexByte (channelByte c.b)
  if c.a < 1 then String.mk ('#' :: rgb ++ toHexByte (channelByte c.a))
  else String.mk ('#' :: rgb)

/-- The numeric value of a hexadecimal digit character (case-insensitive),
as `parseInt` interprets it. -/
def hexDigitVal (ch : Char) : ℕ := hexDigits.indexOf (jsCharToUpper ch)

/-- `parseInt(s, 16)` on a two-character hex substring. -/
def parseHex2 (cs : List Char) : ℕ :=
  match cs with
  | [c1, c2] => 16 * hexDigitVal c1 + hexDigitVal c2
  | _ => 0

/-- `hexToRgba`: strip a leading `#`, parse the three channel bytes, and the
alpha byte only from an eight-digit string (six digits yield `a = 1`). -/
def hexToRgba (hex : String) : Color :=
  let cleanHex := match hex.toList with
    | '#' :: rest => rest
    | l => l
  { r := (parseHex2 (cleanHex.take 2) : ℚ) / 255
    g := (parseHex2 ((cleanHex.drop 2).take 2) : ℚ) / 255
    b := (parseHex2 ((cleanHex.drop 4).take 2) : ℚ) / 255
    a := if cleanHex.length = 8 then (parseHex2 ((cleanHex.drop 6).take 2) : ℚ) / 255 else 1 }

/-! ## `mappers/token-mapper.ts` — the Euclidean GCD over JS numbers

`findGCD` runs `gcd(a, b) = b === 0 ? a : gcd(b, a % b)` over JS numbers,
where `%` is the truncated remainder `a - b * trunc(a / b)`.  All iterates
of a run lie in the lattice `(1/d)·ℤ` for `d` the product of the starting
denominators, so the recursion is realized on scaled integer numerators
(`jsGcdAux`); `jsGcd_zero` and `jsGcd_step` certify that the resulting
function on `ℚ` satisfies exactly the source's defining equations. -/

/-- The distance from a rational to its truncation is below 1. -/
theorem abs_sub_jsTrunc_lt_one (q : ℚ) : |q - (jsTrunc q : ℚ)| < 1 := by
  unfold jsTrunc
  split
  · rw [abs_sub_lt_iff]
    constructor
    · have := Int.lt_floor_add_one q
      linarith
    · have := Int.floor_le q
      linarith
  · rw [abs_sub_lt_iff]
    constructor
    · have := Int.le_ceil q
      linarith
    · have := Int.ceil_lt_add_one q
      linarith

/-- The truncated remainder `m - n * trunc(m / n)` on integers (the value of
the JS `%` on integer operands). -/
def intTruncMod (m n : ℤ) : ℤ := m - n * jsTrunc ((m : ℚ) / (n : ℚ))

/-- The truncated remainder is smaller than the divisor in absolute value. -/
theorem intTruncMod_natAbs_lt (m n : ℤ) (h : n ≠ 0) :
    (intTruncMod m n).natAbs < n.natAbs := by
  have hn : (n : ℚ) ≠ 0 := Int.cast_ne_zero.mpr h
  have habs : |((intTruncMod m n : ℤ) : ℚ)| < |(n : ℚ)| := by
    have hm : ((intTruncMod m n : ℤ) : ℚ) =
        (n : ℚ) * ((m : ℚ) / (n : ℚ) - (jsTrunc ((m : ℚ) / (n : ℚ)) : ℚ)) := by
      unfold intTruncMod
      push_cast
      field_simp
    rw [hm, abs_mul]
    have h1 := abs_sub_jsTrunc_lt_one ((m : ℚ) / (n : ℚ))
    have h2 : 0 < |(n : ℚ)| := abs_pos.mpr hn
    nlinarith
  have hcast : ∀ z : ℤ, |((z : ℤ) : ℚ)| = ((z.natAbs : ℕ) : ℚ) := by
    intro z
    rw [← Int.cast_abs, Int.abs_eq_natAbs, Int.cast_natCast]
  rw [hcast, hcast] at habs
  exact_mod_cast habs

/-- The integer realization of the source's Euclidean recursion
`gcd(a, b) = b === 0 ? a : gcd(b, a % b)`. -/
def jsGcdAux (m n : ℤ) : ℤ :=
  if h : n = 0 then m else jsGcdAux n (intTruncMod m n)
termination_by n.natAbs
decreasing_by exact intTruncMod_natAbs_lt m n h

/-- The inner `gcd` of `findGCD`, on rationals, realized on the scaled
numerators `a = (a.num * b.den) / d`, `b = (b.num * a.den) / d` with
`d = a.den * b.den`. -/
def jsGcd (a b : ℚ) : ℚ :=
  (jsGcdAux (a.num * (b.den : ℤ)) (b.num * (a.den : ℤ)) : ℚ) /
    ((a.den : ℚ) * (b.den : ℚ))

/-- `jsGcdAux` at divisor zero. -/
theorem jsGcdAux_zero (m : ℤ) : jsGcdAux m 0 = m := by
  rw [jsGcdAux]
  simp

/-- First defining equation of the source `gcd`: `gcd(a, 0) = a`. -/
theorem jsGcd_zero (a : ℚ) : jsGcd a 0 = a := by
  unfold jsGcd
  rw [show ((0 : ℚ)).num = 0 from rfl, show ((0 : ℚ)).den = 1 from rfl]
  rw [show (0 : ℤ) * (a.den : ℤ) = 0 by ring]
  rw [jsGcdAux]
  simp [Rat.num_div_den]

/-- `jsGcdAux` is homogeneous under scaling by a positive integer. -/
theorem jsGcdAux_mul (c : ℤ) (hc : 0 < c) :
    ∀ m n : ℤ, jsGcdAux (c * m) (c * n) = c * jsGcdAux m n := by
  suffices H : ∀ k : ℕ, ∀ m n : ℤ, n.natAbs < k →
      jsGcdAux (c * m) (c * n) = c * jsGcdAux m n by
    intro m n
    exact H (n.natAbs + 1) m n (Nat.lt_succ_self _)
  intro k
  induction k with
  | zero => intro m n hn; omega
  | succ k ih =>
    intro m n hn
    by_cases h : n = 0
    · subst h
      rw [show c * (0 : ℤ) = 0 by ring, jsGcdAux_zero, jsGcdAux_zero]
    · have hcn : c * n ≠ 0 := mul_ne_zero (by omega) h
      have hdiv : ((c * m : ℤ) : ℚ) / ((c * n : ℤ) : ℚ) = (m : ℚ) / (n : ℚ) := by
        push_cast
        rw [mul_div_mul_left]
        exact_mod_cast (by omega : c ≠ 0)
      have hmod : intTruncMod (c * m) (c * n) = c * intTruncMod m n := by
        unfold intTruncMod
        rw [hdiv]
        ring
      rw [jsGcdAux]
      rw [dif_neg hcn, hmod]
      have hlt : (intTruncMod m n).natAbs < k := by
        have := intTruncMod_natAbs_lt m n h
        omega
      rw [ih n (intTruncMod m n) hlt]
      conv_rhs => rw [jsGcdAux]
      rw [dif_neg h]

/-- Second defining equation of the source `gcd`:
`gcd(a, b) = gcd(b, a % b)` for `b ≠ 0`. -/
theorem jsGcd_step (a b : ℚ) (h : b ≠ 0) : jsGcd a b = jsGcd b (jsMod a b) := by
  set r : ℚ := jsMod a b with hrdef
  set m : ℤ := a.num * (b.den : ℤ) with hm
  set n : ℤ := b.num * (a.den : ℤ) with hn
  set d : ℤ := (a.den : ℤ) * (b.den : ℤ) with hd
  have hDA : (0 : ℤ) < (a.den : ℤ) := by exact_mod_cast a.pos
  have hDB : (0 : ℤ) < (b.den : ℤ) := by exact_mod_cast b.pos
  have hDR : (0 : ℤ) < (r.den : ℤ) := by exact_mod_cast r.pos
  have hB : b.num ≠ 0 := Rat.num_ne_zero.mpr h
  have hnz : n ≠ 0 := by rw [hn]; exact mul_ne_zero hB (by omega)
  have hdpos : 0 < d := by rw [hd]; positivity
  have hdz : d ≠ 0 := by omega
  have hdQ : ((d : ℤ) : ℚ) ≠ 0 := Int.cast_ne_zero.mpr hdz
  have haq : (a : ℚ) = ((a.num : ℤ) : ℚ) / ((a.den : ℤ) : ℚ) := by
    push_cast
    exact (Rat.num_div_den a).symm
  have hbq : (b : ℚ) = ((b.num : ℤ) : ℚ) / ((b.den : ℤ) : ℚ) := by
    push_cast
    exact (Rat.num_div_den b).symm
  have hBq : ((b.num : ℤ) : ℚ) ≠ 0 := Int.cast_ne_zero.mpr hB
  have hDAq : ((a.den : ℤ) : ℚ) ≠ 0 := by positivity
  have hDBq : ((b.den : ℤ) : ℚ) ≠ 0 := by positivity
  have hDRq : ((r.den : ℤ) : ℚ) ≠ 0 := by positivity
  have hdiv : a / b = (m : ℚ) / (n : ℚ) := by
    rw [haq, hbq, hm, hn]
    push_cast
    rw [div_div_div_eq]
    ring_nf
  -- the remainder as a fraction over d
  have hr : r = ((intTruncMod m n : ℤ) : ℚ) / ((d : ℤ) : ℚ) := by
    rw [hrdef]
    unfold jsMod intTruncMod
    rw [hdiv, haq, hbq, hm, hn, hd]
    push_cast
    field_simp
    ring
  -- cross-multiplied integer identity for r
  have hRI : r.num * d = intTruncMod m n * (r.den : ℤ) := by
    have h1 : ((r.num : ℤ) : ℚ) / ((r.den : ℤ) : ℚ) =
        ((intTruncMod m n : ℤ) : ℚ) / ((d : ℤ) : ℚ) := by
      rw [← hr]
      push_cast
      exact Rat.num_div_den r
    rw [div_eq_div_iff hDRq hdQ] at h1
    exact_mod_cast h1
  -- the reduced denominator of r divides d
  have hdvd : (r.den : ℤ) ∣ d := by
    have h1 : r = Rat.divInt (intTruncMod m n) d := by
      rw [Rat.divInt_eq_div, hr]
    have h2 := Rat.den_dvd (intTruncMod m n) d
    rw [← h1] at h2
    exact h2
  obtain ⟨c, hc⟩ := hdvd
  have hcpos : 0 < c := by
    rcases lt_trichotomy c 0 with hlt | heq | hgt
    · exfalso; nlinarith [hdpos, hDR, hc]
    · exfalso; rw [heq, mul_zero] at hc; omega
    · exact hgt
  have hRc : r.num * c = intTruncMod m n := by
    have h2 : (r.den : ℤ) * (r.num * c) = (r.den : ℤ) * intTruncMod m n := by
      linear_combination hRI - r.num * hc
    exact mul_left_cancel₀ (by omega) h2
  -- the scaled-integer chain
  have hXY : c * jsGcdAux (b.num * (r.den : ℤ)) (r.num * (b.den : ℤ)) =
      (b.den : ℤ) * jsGcdAux n (intTruncMod m n) := by
    have h1 : c * jsGcdAux (b.num * (r.den : ℤ)) (r.num * (b.den : ℤ)) =
        jsGcdAux (c * (b.num * (r.den : ℤ))) (c * (r.num * (b.den : ℤ))) :=
      (jsGcdAux_mul c hcpos _ _).symm
    have h2 : c * (b.num * (r.den : ℤ)) = (b.den : ℤ) * n := by
      calc c * (b.num * (r.den : ℤ)) = b.num * ((r.den : ℤ) * c) := by ring
      _ = b.num * d := by rw [← hc]
      _ = b.num * ((a.den : ℤ) * (b.den : ℤ)) := by rw [hd]
      _ = (b.den : ℤ) * (b.num * (a.den : ℤ)) := by ring
      _ = (b.den : ℤ) * n := by rw [← hn]
    have h3 : c * (r.num * (b.den : ℤ)) = (b.den : ℤ) * intTruncMod m n := by
      rw [← hRc]; ring
    rw [h1, h2, h3, jsGcdAux_mul (b.den : ℤ) hDB]
  -- one unfolding step on the left-hand side
  have hL : jsGcd a b = (jsGcdAux n (intTruncMod m n) : ℚ) / ((d : ℤ) : ℚ) := by
    unfold jsGcd
    rw [← hm, ← hn]
    rw [jsGcdAux, dif_neg hnz]
    rw [hd]
    push_cast
    ring_nf
  have hR2 : jsGcd b r = (jsGcdAux (b.num * (r.den : ℤ)) (r.num * (b.den : ℤ)) : ℚ) /
      (((b.den : ℤ) : ℚ) * ((r.den : ℤ) : ℚ)) := by
    unfold jsGcd
    push_cast
    ring_nf
  rw [hL, hR2]
  rw [div_eq_div_iff hdQ (by positivity)]
  have hfin : jsGcdAux n (intTruncMod m n) * ((b.den : ℤ) * (r.den : ℤ)) =
      jsGcdAux (b.num * (r.den : ℤ)) (r.num * (b.den : ℤ)) * d := by
    calc jsGcdAux n (intTruncMod m n) * ((b.den : ℤ) * (r.den : ℤ))
      = (r.den : ℤ) * ((b.den : ℤ) * jsGcdAux n (intTruncMod m n)) := by ring
    _ = (r.den : ℤ) * (c * jsGcdAux (b.num * (r.den : ℤ)) (r.num * (b.den : ℤ))) := by
        rw [hXY]
    _ = jsGcdAux (b.num * (r.den : ℤ)) (r.num * (b.den : ℤ)) * ((r.den : ℤ) * c) := by ring
    _ = jsGcdAux (b.num * (r.den : ℤ)) (r.num * (b.den : ℤ)) * d := by rw [← hc]
  exact_mod_cast hfin

/-- Floor of a ratio of integers is the Euclidean quotient. -/
theorem floor_intCast_div (p q : ℤ) (hq : 0 < q) :
    ⌊(p : ℚ) / (q : ℚ)⌋ = p / q := by
  have hqQ : (0 : ℚ) < (q : ℚ) := by exact_mod_cast hq
  have hmod := Int.emod_nonneg p (by omega : q ≠ 0)
  have hmodlt := Int.emod_lt_of_pos p hq
  have hdiv := Int.ediv_add_emod p q
  rw [Int.floor_eq_iff]
  constructor
  · rw [le_div_iff hqQ]
    have hcast : ((p / q : ℤ) : ℚ) * (q : ℚ) = ((p / q * q : ℤ) : ℚ) := by push_cast; ring
    rw [hcast]
    exact_mod_cast (by nlinarith [hdiv, hmod] : p / q * q ≤ p)
  · rw [div_lt_iff hqQ]
    have hcast : (((p / q : ℤ) : ℚ) + 1) * (q : ℚ) = (((p / q + 1) * q : ℤ) : ℚ) := by
      push_cast; ring
    rw [hcast]
    exact_mod_cast (by nlinarith [hdiv, hmodlt] : p < (p / q + 1) * q)

/-- On nonnegative integers the truncated remainder is the Euclidean one. -/
theorem intTruncMod_eq_emod (p q : ℤ) (hp : 0 ≤ p) (hq : 0 < q) :
    intTruncMod p q = p % q := by
  unfold intTruncMod jsTrunc
  have hnn : (0 : ℚ) ≤ (p : ℚ) / (q : ℚ) := by positivity
  rw [if_pos hnn, floor_intCast_div p q hq, Int.emod_def]

/-- On nonnegative integers the source's Euclid computes the usual GCD. -/
theorem jsGcdAux_eq_gcd (p q : ℤ) (hp : 0 ≤ p) (hq : 0 ≤ q) :
    jsGcdAux p q = (Int.gcd p q : ℤ) := by
  suffices H : ∀ k : ℕ, ∀ p q : ℤ, 0 ≤ p → 0 ≤ q → q.natAbs < k →
      jsGcdAux p q = (Int.gcd p q : ℤ) by
    exact H (q.natAbs + 1) p q hp hq (Nat.lt_succ_self _)
  intro k
  induction k with
  | zero => intro p q _ _ hk; omega
  | succ k ih =>
    intro p q hp hq hk
    by_cases h0 : q = 0
    · subst h0
      rw [jsGcdAux_zero, Int.gcd_zero_right]
      omega
    · have hqpos : 0 < q := by omega
      rw [jsGcdAux, dif_neg h0]
      rw [intTruncMod_eq_emod p q hp hqpos]
      have hmod := Int.emod_nonneg p h0
      have hmodlt := Int.emod_lt_of_pos p hqpos
      have hrec : jsGcdAux q (p % q) = (Int.gcd q (p % q) : ℤ) := by
        apply ih q (p % q) (by omega) hmod
        omega
      rw [hrec]
      congr 1
      rw [Int.gcd_def, Int.gcd_def]
      have h1 : (p % q).natAbs = p.natAbs % q.natAbs := by
        have hPQ : ((p.natAbs % q.natAbs : ℕ) : ℤ) = p % q := by
          push_cast
          rw [abs_of_nonneg hp, abs_of_nonneg (le_of_lt hqpos)]
        omega
      rw [h1]
      calc q.natAbs.gcd (p.natAbs % q.natAbs)
          = (p.natAbs % q.natAbs).gcd q.natAbs := Nat.gcd_comm _ _
        _ = q.natAbs.gcd p.natAbs := (Nat.gcd_rec _ _).symm
        _ = p.natAbs.gcd q.natAbs := Nat.gcd_comm _ _

/-- `jsGcd` on integer rationals is the usual GCD. -/
theorem jsGcd_intCast (p q : ℤ) (hp : 0 ≤ p) (hq : 0 ≤ q) :
    jsGcd (p : ℚ) (q : ℚ) = ((Int.gcd p q : ℕ) : ℚ) := by
  unfold jsGcd
  rw [Rat.den_intCast, Rat.den_intCast, Rat.num_intCast, Rat.num_intCast]
  push_cast
  rw [mul_one, mul_one]
  rw [jsGcdAux_eq_gcd p q hp hq]
  push_cast
  ring

/-! ## `mappers/token-mapper.ts` — design tokens -/

/-- Insert into an ascending rational list. -/
def insertAscQ (x : ℚ) : List ℚ → List ℚ
  | [] => [x]
  | y :: ys => if x ≤ y then x :: y :: ys else y :: insertAscQ x ys

/-- `xs.sort((a, b) => a - b)` on distinct rationals. -/
def sortAscQ (l : List ℚ) : List ℚ := l.foldr insertAscQ []

/-- Insert into a descending integer list. -/
def insertDesc (x : ℤ) : List ℤ → List ℤ
  | [] => [x]
  | y :: ys => if y ≤ x then x :: y :: ys else y :: insertDesc x ys

/-- `xs.sort((a, b) => b - a)` on distinct integers. -/
def sortDesc (l : List ℤ) : List ℤ := l.foldr insertDesc []

/-- `TypographyValue`: the `value` payload of a typography token. -/
structure TypographyValue where
  fontFamily : String
  fontSize : ℚ
  fontWeight : ℚ
  lineHeight : ℚ
  letterSpacing : ℚ
  textAlign : String
deriving DecidableEq

/-- A design-token `value`. -/
inductive TokenValue
  | spacingV (px : ℚ)
  | typographyV (t : TypographyValue)
deriving DecidableEq

/-- A design-token `description`, modelled structurally: each constructor
stands for one of the source's template strings, carrying exactly the
values interpolated into it. -/
inductive TokenDesc
  /-- `"{multiplier}x base unit ({baseUnit}px)"` -/
  | spacingDesc (multiplier : ℤ) (baseUnit : ℚ)
  /-- `"{LEVEL} text style"` (from an explicit semantic level) -/
  | semanticText (lvl : SemanticLevel)
  /-- `"Heading level {n}"` -/
  | headingLevel (n : ℕ)
  /-- `"Body text style"` -/
  | bodyTextStyle
  /-- `"Caption/small text style"` -/
  | captionTextStyle
deriving DecidableEq

/-- A design-token `usage`, modelled structurally like `TokenDesc`. -/
inductive TokenUsage
  /-- `"Used for margins, padding, and gaps"` -/
  | spacingUsage
  /-- `"Font size: {size}px, used {count} times"` -/
  | fontUsage (sizePx : ℤ) (count : ℕ)
deriving DecidableEq

/-- `DesignToken` (the fields the two verified detectors produce). -/
structure DesignToken where
  name : String
  category : String
  value : TokenValue
  description : TokenDesc
  usage : TokenUsage
deriving DecidableEq

/-- The `sizeGroups` map of `detectTypographyScale`: group typography
intents by rounded font size, in insertion order, each group in source
order. -/
def typographySizeGroups (typos : List TypographyIntent) :
    List (ℤ × List TypographyIntent) :=
  typos.foldl
    (fun groups typo =>
      let key := jsRound typo.fontSize
      jsMapSet key ((jsMapGet key groups).getD [] ++ [typo]) groups)
    []

/-- The `sortedSizes` of `detectTypographyScale`: the distinct rounded sizes
in descending order. -/
def typographySortedSizes (typos : List TypographyIntent) : List ℤ :=
  sortDesc ((typographySizeGroups typos).map Prod.fst)

/-- A fallback representative (never reached: every group constructed by
`typographySizeGroups` is non-empty). -/
def emptyTypography : TypographyIntent := ⟨"", 0, 0, 0, 0, "", none⟩

/-- `detectTypographyScale`: the token for each distinct rounded font size,
named by the representative's explicit semantic level when present, else
positionally (`h1`…`h6`, then `body-N` / `caption-N`). -/
def detectTypographyScale (typos : List TypographyIntent) : List DesignToken :=
  if typos.isEmpty then []
  else
    let sizeGroups := typographySizeGroups typos
    let sortedSizes := typographySortedSizes typos
    sortedSizes.enum.map (fun p =>
      let index := p.1
      let size := p.2
      let group := (jsMapGet size sizeGroups).getD []
      let representative := group.headD emptyTypography
      let nameDesc : String × TokenDesc :=
        match representative.semanticLevel with
        | some lvl => (lvl.str, .semanticText lvl)
        | none =>
          if index < 6 then ("h" ++ toString (index + 1), .headingLevel (index + 1))
          else if 14 ≤ size then ("body-" ++ toString (index - 5), .bodyTextStyle)
          else ("caption-" ++ toString (index - 5), .captionTextStyle)
      { name := nameDesc.1
        category := "typography"
        value := .typographyV ⟨representative.fontFamily, representative.fontSize,
          representative.fontWeight, representative.lineHeight,
          representative.letterSpacing, representative.textAlign⟩
        description := nameDesc.2
        usage := .fontUsage size group.length })

/-- The spacing scale names. -/
def scaleNames : List String := ["xs", "sm", "md", "lg", "xl", "2xl", "3xl", "4xl"]

/-- `findGCD`: fold the Euclidean `gcd` over the list, seeding with the
first element (unrounded) and rounding every later element.  The source's
`reduce` would throw on `[]`; `detectSpacingSystem` guards that case, so the
`[]` branch here is unreachable. -/
def findGCD (numbers : List ℚ) : ℚ :=
  match numbers with
  | [] => 0
  | x :: xs => xs.foldl (fun acc num => jsGcd acc ((jsRound num : ℤ) : ℚ)) x

/-- The `uniqueSpacings` of `detectSpacingSystem`: positive values, deduped,
ascending. -/
def spacingUniqueValues (spacings : List ℚ) : List ℚ :=
  sortAscQ ((spacings.filter (fun s => 0 < s)).dedup)

/-- The detected base unit. -/
def spacingBaseUnit (spacings : List ℚ) : ℚ :=
  findGCD (spacingUniqueValues spacings)

/-- `detectSpacingSystem`. -/
def detectSpacingSystem (spacings : List ℚ) : List DesignToken :=
  if spacings.isEmpty then []
  else
    let uniqueSpacings := spacingUniqueValues spacings
    if uniqueSpacings.isEmpty then []
    else
      let baseUnit := findGCD uniqueSpacings
      uniqueSpacings.enum.map (fun p =>
        let index := p.1
        let spacing := p.2
        let multiplier := jsRound (spacing / baseUnit)
        let scaleName := (scaleNames.get? index).getD (toString index)
        { name := "spacing-" ++ scaleName
          category := "spacing"
          value := .spacingV spacing
          description := .spacingDesc multiplier baseUnit
          usage := .spacingUsage })

/-! ## Example nodes used in concrete theorems -/

/-- A frame with a solid background and a single text child, named
`button`: the structural tier matches `button` at 0.75 and the naming tier
matches `button` at 0.4. -/
def exButtonNamed : FigmaNode :=
  .node { id := "b1", name := "button", ntype := .FRAME,
          fills := some [⟨"SOLID", some ⟨0, 0, 0, 1⟩⟩] }
    (some [.node { id := "t1", name := "label", ntype := .TEXT } none])

/-- An auto-layout frame whose `primaryAxisAlignItems` is `SPACE_AROUND`. -/
def exSpaceAroundFrame : FigmaNode :=
  .node { id := "f1", name := "Toolbar", ntype := .FRAME,
          layoutMode := some "HORIZONTAL",
          primaryAxisAlignItems := some "SPACE_AROUND" } none

/-- An auto-layout frame whose `primaryAxisAlignItems` is `CENTER`. -/
def exCenterFrame : FigmaNode :=
  .node { id := "f2", name := "Toolbar", ntype := .FRAME,
          layoutMode := some "HORIZONTAL",
          primaryAxisAlignItems := some "CENTER" } none

/-- A rectangle child with a bounding box at the given coordinates. -/
def exBoxChild (id : String) (x y : ℚ) : FigmaNode :=
  .node { id := id, name := "Cell", ntype := .RECTANGLE,
          absoluteBoundingBox := some ⟨x, y, 100, 50⟩ } none

/-- Six children on 3 distinct X and 2 distinct Y positions. -/
def exGridChildren : List FigmaNode :=
  [exBoxChild "c1" 0 0, exBoxChild "c2" 110 0, exBoxChild "c3" 220 0,
   exBoxChild "c4" 0 60, exBoxChild "c5" 110 60, exBoxChild "c6" 220 60]

/-- An auto-layout frame with 6 children on 3 distinct X and 2 distinct Y
positions. -/
def exGridFrame : FigmaNode :=
  .node { id := "g1", name := "Gallery", ntype := .FRAME,
          layoutMode := some "HORIZONTAL" } (some exGridChildren)

/-- An auto-layout frame with 6 children sharing a single X position. -/
def exColumnFrame : FigmaNode :=
  .node { id := "g2", name := "Stack", ntype := .FRAME,
          layoutMode := some "VERTICAL" }
    (some [exBoxChild "d1" 0 0, exBoxChild "d2" 0 60, exBoxChild "d3" 0 120,
           exBoxChild "d4" 0 180, exBoxChild "d5" 0 240, exBoxChild "d6" 0 300])

/-- A text node whose raw style carries font weight 450 (not a multiple of
100). -/
def exText450 : FigmaNode :=
  .node { id := "t450", name := "Paragraph", ntype := .TEXT,
          style := some ⟨"Inter", 450, 16, "LEFT", 0, 24⟩,
          characters := some "Hello" } none

/-- The typography intent the pipeline extracts from `exText450`. -/
def exTypo450 : TypographyIntent := ⟨"Inter", 16, 450, 24, 0, "LEFT", none⟩

/-- A one-entry memory cache whose entry was written at time 0 with a
1-second TTL. -/
def exCache6 : MemoryCache ℕ :=
  { cache := [("a", ⟨5, 0, 1⟩)], accessOrder := ["a"], maxSize := 10,
    hits := 0, misses := 0 }

/-- A memory cache at capacity 2 holding keys `a` (least recently used)
and `b`. -/
def exCache7 : MemoryCache ℕ :=
  { cache := [("a", ⟨1, 0, 10⟩), ("b", ⟨2, 0, 10⟩)],
    accessOrder := ["a", "b"], maxSize := 2, hits := 0, misses := 0 }

/-- A cache manager with caching disabled over a one-entry provider. -/
def exMgr10 : CacheManager ℕ :=
  { config := { enabled := false, defaultTTL := 60, maxSize := 10,
                ttlByType := ⟨30, 40, 50, 60⟩ },
    provider := { cache := [("figma:file:X", ⟨1, 0, 10⟩)],
                  accessOrder := ["figma:file:X"], maxSize := 10,
                  hits := 0, misses := 0 } }

/-! ## Helper lemmas on the classifier tiers -/

/-- The component-type tier always reports confidence 0.6. -/
theorem detectFromComponentType_confidence (n : FigmaNode) (c : RoleDetectionResult)
    (h : detectFromComponentType n = some c) : c.confidence = 3 / 5 := by
  unfold detectFromComponentType at h
  split at h
  · cases h; rfl
  · cases h

/-- The structural tier always reports method `structural`. -/
theorem detectFromStructure_method (n : FigmaNode) (s : RoleDetectionResult)
    (h : detectFromStructure n = some s) : s.detectionMethod = .structural := by
  unfold detectFromStructure at h
  split at h
  · split at h
    · cases h; rfl
    · split at h
      · cases h; rfl
      · cases h
  · dsimp only at h
    split at h
    · cases h; rfl
    · split at h
      · cases h; rfl
      · split at h
        · cases h; rfl
        · split at h
          · cases h; rfl
          · cases h

/-- `identifySemanticRole` always reduces to the structural/naming
combination step (the component-type tier never clears the 0.7 bar). -/
theorem identifySemanticRole_eq_rest (n : FigmaNode) :
    identifySemanticRole n =
      identifySemanticRoleRest (detectFromStructure n) (detectFromNaming n)
        (detectFromComponentType n) := by
  rw [identifySemanticRole]
  cases hcomp : detectFromComponentType n with
  | none => rfl
  | some c =>
    have hc : c.confidence = 3 / 5 := detectFromComponentType_confidence n c hcomp
    simp only [hc]
    rw [if_neg (by norm_num : ¬(7 : ℚ) / 10 < 3 / 5)]

/-! ## Claim C1 -/

/-- C1 (amended): when the structural and naming tiers both fire and
disagree, the structural tier wins with its own confidence and method
`structural`; when they agree, the hybrid combination (confidence
`min(structural + 0.2, 1)`, method `hybrid`) applies only if the structural
confidence is at most 0.7 — a structural confidence above 0.7 short-circuits
and is returned unchanged (method `structural`) even when the naming tier
agrees. -/
theorem identifySemanticRole_structural_vs_naming (n : FigmaNode)
    (s nr : RoleDetectionResult)
    (hs : detectFromStructure n = some s) (hn : detectFromNaming n = some nr) :
    (s.role ≠ nr.role →
      (identifySemanticRole n).role = s.role ∧
      (identifySemanticRole n).confidence = s.confidence ∧
      (identifySemanticRole n).detectionMethod = .structural) ∧
    (s.role = nr.role → s.confidence ≤ 7 / 10 →
      identifySemanticRole n =
        ⟨s.role, min (s.confidence + 1 / 5) 1, .hybrid,
          "Structural analysis and naming both suggest " ++ s.role.str⟩) ∧
    (s.role = nr.role → 7 / 10 < s.confidence →
      identifySemanticRole n = s ∧ s.detectionMethod = .structural) := by
  have hmeth := detectFromStructure_method n s hs
  have hrest := identifySemanticRole_eq_rest n
  rw [hrest, hs, hn]
  unfold identifySemanticRoleRest
  dsimp only
  refine ⟨?_, ?_, ?_⟩
  · intro hne
    by_cases hconf : 7 / 10 < s.confidence
    · rw [if_pos hconf]
      exact ⟨rfl, rfl, hmeth⟩
    · rw [if_neg hconf, if_neg hne]
      exact ⟨rfl, rfl, rfl⟩
  · intro heq hle
    rw [if_neg (by linarith), if_pos heq]
  · intro heq hlt
    rw [if_pos hlt]
    exact ⟨rfl, hmeth⟩

/-- C1 (counterexample to the claim as stated): on a frame named `button`
with a background and one text child, the structural tier fires with
`button` at 0.75 and the naming tier fires with `button` at 0.4 — the tiers
agree — yet the classifier returns the structural result unchanged
(confidence 0.75, method `structural`), not the claimed hybrid result with
confidence `min(0.75 + 0.2, 1) = 0.95`. -/
theorem identifySemanticRole_agree_not_hybrid_counterexample :
    detectFromStructure exButtonNamed =
      some ⟨.button, 3 / 4, .structural, "Background + text suggests button"⟩ ∧
    detectFromNaming exButtonNamed =
      some ⟨.button, 2 / 5, .naming, "Name \"button\" matches pattern for button"⟩ ∧
    identifySemanticRole exButtonNamed =
      ⟨.button, 3 / 4, .structural, "Background + text suggests button"⟩ ∧
    (identifySemanticRole exButtonNamed).detectionMethod ≠ .hybrid ∧
    (identifySemanticRole exButtonNamed).confidence ≠ min (3 / 4 + 1 / 5) 1 := by
  have h1 : detectFromStructure exButtonNamed =
      some ⟨.button, 3 / 4, .structural, "Background + text suggests button"⟩ := rfl
  have h2 : detectFromNaming exButtonNamed =
      some ⟨.button, 2 / 5, .naming, "Name \"button\" matches pattern for button"⟩ := rfl
  have h3 : identifySemanticRole exButtonNamed =
      ⟨.button, 3 / 4, .structural, "Background + text suggests button"⟩ := by
    rw [identifySemanticRole_eq_rest, h1, h2]
    rw [show detectFromComponentType exButtonNamed = none from rfl]
    unfold identifySemanticRoleRest
    dsimp only
    rw [if_pos (by norm_num : (7 : ℚ) / 10 < 3 / 4)]
  refine ⟨h1, h2, h3, ?_, ?_⟩
  · rw [h3]
    simp
  · rw [h3]
    norm_num [min_def]

/-- C1 witness: the amended theorem applied to the concrete `button` node. -/
theorem identifySemanticRole_structural_vs_naming_witness :
    ((SemanticRole.button : SemanticRole) ≠ .button →
      (identifySemanticRole exButtonNamed).role = SemanticRole.button ∧
      (identifySemanticRole exButtonNamed).confidence = 3 / 4 ∧
      (identifySemanticRole exButtonNamed).detectionMethod = .structural) ∧
    ((SemanticRole.button : SemanticRole) = .button → (3 : ℚ) / 4 ≤ 7 / 10 →
      identifySemanticRole exButtonNamed =
        ⟨.button, min ((3 : ℚ) / 4 + 1 / 5) 1, .hybrid,
          "Structural analysis and naming both suggest " ++ SemanticRole.button.str⟩) ∧
    ((SemanticRole.button : SemanticRole) = .button → (7 : ℚ) / 10 < 3 / 4 →
      identifySemanticRole exButtonNamed =
        ⟨.button, 3 / 4, .structural, "Background + text suggests button"⟩ ∧
      (DetectionMethod.structural : DetectionMethod) = .structural) :=
  identifySemanticRole_structural_vs_naming exButtonNamed
    ⟨.button, 3 / 4, .structural, "Background + text suggests button"⟩
    ⟨.button, 2 / 5, .naming, "Name \"button\" matches pattern for button"⟩
    rfl rfl

/-! ## Claim C2 -/

/-- A layout payload produced by `normalizeNode` is either the extracted
layout intent or the degenerate fallback container (which carries no flexbox
and no grid data). -/
theorem normalizeNode_layout_data (n : FigmaNode) (pid : Option String)
    (ctx : Option ComponentReuse) (nn : NormalizedNode) (d : LayoutContainer)
    (hnn : normalizeNode n pid ctx = some nn) (hd : nn.data = .layout d) :
    d = extractLayoutIntent n ∨ (d.flexbox = none ∧ d.grid = none) := by
  unfold normalizeNode at hnn
  split at hnn
  · cases hnn
  · dsimp only at hnn
    split at hnn
    · cases hnn
      cases hd
      exact Or.inl rfl
    · split at hnn
      · cases hnn
        cases hd
      · split at hnn
        · cases hnn
          cases hd
        · split at hnn
          · cases hnn
            cases hd
          · split at hnn
            · cases hnn
              cases hd
              exact Or.inr ⟨rfl, rfl⟩
            · cases hnn

/-- The flexbox rules attached by `extractLayoutIntent` are those of
`extractFlexboxRules`. -/
theorem extractLayoutIntent_flexbox (n : FigmaNode) (fb : FlexboxRules)
    (hfb : (extractLayoutIntent n).flexbox = some fb) :
    fb = extractFlexboxRules n := by
  unfold extractLayoutIntent at hfb
  dsimp only at hfb
  split at hfb
  · cases hfb
    rfl
  · cases hfb

/-- C2 (amended): for every auto-layout node normalized by the pipeline
whose layout payload carries flexbox rules, `justifyContent` is determined
by `primaryAxisAlignItems` through the node-mapper's four-entry table
`MIN → flex-start`, `CENTER → center`, `MAX → flex-end`,
`SPACE_BETWEEN → space-between`, and every other value — including
`SPACE_AROUND` and `SPACE_EVENLY`, which only the unused style-mapper table
knows — falls back to `flex-start`. -/
theorem normalized_flexbox_justifyContent (n : FigmaNode) (pid : Option String)
    (ctx : Option ComponentReuse) (nn : NormalizedNode) (d : LayoutContainer)
    (fb : FlexboxRules)
    (hnn : normalizeNode n pid ctx = some nn) (hd : nn.data = .layout d)
    (hfb : d.flexbox = some fb) :
    (n.primaryAxisAlignItems = some "MIN" → fb.justifyContent = .flexStart) ∧
    (n.primaryAxisAlignItems = some "CENTER" → fb.justifyContent = .center) ∧
    (n.primaryAxisAlignItems = some "MAX" → fb.justifyContent = .flexEnd) ∧
    (n.primaryAxisAlignItems = some "SPACE_BETWEEN" → fb.justifyContent = .spaceBetween) ∧
    (n.primaryAxisAlignItems ∉
        ([some "MIN", some "CENTER", some "MAX", some "SPACE_BETWEEN"] :
          List (Option String)) →
      fb.justifyContent = .flexStart) := by
  have hdata := normalizeNode_layout_data n pid ctx nn d hnn hd
  rcases hdata with hext | ⟨hnone, _⟩
  · subst hext
    have hfbeq : fb = extractFlexboxRules n := extractLayoutIntent_flexbox n fb hfb
    subst hfbeq
    unfold extractFlexboxRules
    dsimp only
    unfold mapPrimaryAxisAlign
    refine ⟨?_, ?_, ?_, ?_, ?_⟩ <;> intro hpa
    · rw [hpa]; rfl
    · rw [hpa]; rfl
    · rw [hpa]; rfl
    · rw [hpa]; rfl
    · split
      all_goals simp_all
  · rw [hnone] at hfb
    cases hfb

/-- C2 (counterexample to the claim as stated): a horizontal auto-layout
frame with `primaryAxisAlignItems = SPACE_AROUND` normalizes to flexbox
rules with `justifyContent = flex-start`, not the claimed `space-around`. -/
theorem spaceAround_justifyContent_counterexample :
    normalizeNode exSpaceAroundFrame none none = some
      { id := "f1", name := "Toolbar", originalType := .FRAME,
        semanticRole := ⟨.unknown, 0, .hybrid, "No semantic role detected"⟩,
        parentId := none, visible := true,
        data := .layout
          { strategy := .flexbox,
            flexbox := some ⟨.row, .flexStart, .stretch, 0, none⟩,
            grid := none, children := [], clipsContent := false,
            dimensions := ⟨0, 0⟩ } } ∧
    JustifyContent.flexStart ≠ .spaceAround := by
  exact ⟨rfl, by decide⟩

/-- C2 witness: the amended theorem applied to a concrete `CENTER` frame. -/
theorem normalized_flexbox_justifyContent_witness :
    (exCenterFrame.primaryAxisAlignItems = some "MIN" →
      (⟨.row, .center, .stretch, 0, none⟩ : FlexboxRules).justifyContent = .flexStart) ∧
    (exCenterFrame.primaryAxisAlignItems = some "CENTER" →
      (⟨.row, .center, .stretch, 0, none⟩ : FlexboxRules).justifyContent = .center) ∧
    (exCenterFrame.primaryAxisAlignItems = some "MAX" →
      (⟨.row, .center, .stretch, 0, none⟩ : FlexboxRules).justifyContent = .flexEnd) ∧
    (exCenterFrame.primaryAxisAlignItems = some "SPACE_BETWEEN" →
      (⟨.row, .center, .stretch, 0, none⟩ : FlexboxRules).justifyContent = .spaceBetween) ∧
    (exCenterFrame.primaryAxisAlignItems ∉
        ([some "MIN", some "CENTER", some "MAX", some "SPACE_BETWEEN"] :
          List (Option String)) →
      (⟨.row, .center, .stretch, 0, none⟩ : FlexboxRules).justifyContent = .flexStart) :=
  normalized_flexbox_justifyContent exCenterFrame none none
    { id := "f2", name := "Toolbar", originalType := .FRAME,
      semanticRole := ⟨.unknown, 0, .hybrid, "No semantic role detected"⟩,
      parentId := none, visible := true,
      data := .layout
        { strategy := .flexbox,
          flexbox := some ⟨.row, .center, .stretch, 0, none⟩,
          grid := none, children := [], clipsContent := false,
          dimensions := ⟨0, 0⟩ } }
    { strategy := .flexbox,
      flexbox := some ⟨.row, .center, .stretch, 0, none⟩,
      grid := none, children := [], clipsContent := false, dimensions := ⟨0, 0⟩ }
    ⟨.row, .center, .stretch, 0, none⟩
    rfl rfl rfl

/-! ## Claim C3 -/

/-- Inserting into a list adds one element. -/
theorem insertAsc_length (x : ℤ) (l : List ℤ) :
    (insertAsc x l).length = l.length + 1 := by
  induction l with
  | nil => rfl
  | cons y ys ih =>
    unfold insertAsc
    split
    · rfl
    · simp [ih]

/-- Sorting preserves length. -/
theorem sortAsc_length (l : List ℤ) : (sortAsc l).length = l.length := by
  induction l with
  | nil => rfl
  | cons y ys ih =>
    unfold sortAsc at *
    simp [List.foldr_cons, insertAsc_length, ih]

/-- C3: a `FRAME` with auto-layout `HORIZONTAL`/`VERTICAL` and 6 children
with bounding boxes classifies as `grid-candidate` with `columns = 3`,
`rows = 2` when the rounded positions occupy 3 distinct X and 2 distinct Y
values, and as `flexbox` when all 6 children share a single rounded X
value. -/
theorem grid_detection (n : FigmaNode) (cs : List FigmaNode)
    (hframe : n.ntype = .FRAME)
    (hmode : n.layoutMode = some "HORIZONTAL" ∨ n.layoutMode = some "VERTICAL")
    (hcs : n.children = some cs)
    (hlen : cs.length = 6)
    (hboxes : (cs.filterMap FigmaNode.absoluteBoundingBox).length = 6) :
    ((((cs.filterMap FigmaNode.absoluteBoundingBox).map
          (fun p => jsRound p.x)).dedup.length = 3) →
      (((cs.filterMap FigmaNode.absoluteBoundingBox).map
          (fun p => jsRound p.y)).dedup.length = 2) →
      determineLayoutStrategy n = .gridCandidate ∧
      ∃ g, (extractLayoutIntent n).grid = some g ∧ g.columns = 3 ∧ g.rows = 2) ∧
    ((((cs.filterMap FigmaNode.absoluteBoundingBox).map
          (fun p => jsRound p.x)).dedup.length = 1) →
      determineLayoutStrategy n = .flexbox) := by
  have hmodeStr : ∃ m, n.layoutMode = some m ∧ (m = "HORIZONTAL" ∨ m = "VERTICAL") := by
    rcases hmode with hm | hm
    · exact ⟨"HORIZONTAL", hm, Or.inl rfl⟩
    · exact ⟨"VERTICAL", hm, Or.inr rfl⟩
  obtain ⟨m, hm, hmOr⟩ := hmodeStr
  constructor
  · intro hx hy
    have hasG : hasGridPattern n = true := by
      unfold hasGridPattern
      rw [hcs]
      dsimp only
      rw [if_neg (by omega : ¬cs.length < 4)]
      rw [if_neg (by omega : ¬(cs.filterMap FigmaNode.absoluteBoundingBox).length < 4)]
      rw [hx, hy]
      rfl
    have hstrat : determineLayoutStrategy n = .gridCandidate := by
      unfold determineLayoutStrategy
      rw [hm]
      dsimp only
      rw [if_pos hmOr]
      rw [if_pos ⟨by rw [hcs]; rfl, hasG⟩]
    refine ⟨hstrat, ?_⟩
    have hgrid : (extractLayoutIntent n).grid = detectGridPattern n := by
      unfold extractLayoutIntent
      dsimp only
      rw [if_pos ⟨hstrat, by rw [hcs]; rfl, hframe⟩]
    unfold detectGridPattern at hgrid
    rw [hcs] at hgrid
    dsimp only at hgrid
    refine ⟨_, hgrid, ?_, ?_⟩
    · dsimp only
      rw [sortAsc_length, hx]
    · dsimp only
      rw [sortAsc_length, hy]
  · intro hx1
    have hasG : hasGridPattern n = false := by
      unfold hasGridPattern
      rw [hcs]
      dsimp only
      rw [if_neg (by omega : ¬cs.length < 4)]
      rw [if_neg (by omega : ¬(cs.filterMap FigmaNode.absoluteBoundingBox).length < 4)]
      rw [hx1]
      rfl
    unfold determineLayoutStrategy
    rw [hm]
    dsimp only
    rw [if_pos hmOr]
    rw [if_neg]
    intro hcontra
    rw [hasG] at hcontra
    exact absurd hcontra.2 (by simp)

/-- C3 witness: the grid-detection theorem applied to the concrete
3-column, 2-row frame. -/
theorem grid_detection_witness :
    ((((exGridChildren.filterMap FigmaNode.absoluteBoundingBox).map
          (fun p => jsRound p.x)).dedup.length = 3) →
      (((exGridChildren.filterMap FigmaNode.absoluteBoundingBox).map
          (fun p => jsRound p.y)).dedup.length = 2) →
      determineLayoutStrategy exGridFrame = .gridCandidate ∧
      ∃ g, (extractLayoutIntent exGridFrame).grid = some g ∧
        g.columns = 3 ∧ g.rows = 2) ∧
    ((((exGridChildren.filterMap FigmaNode.absoluteBoundingBox).map
          (fun p => jsRound p.x)).dedup.length = 1) →
      determineLayoutStrategy exGridFrame = .flexbox) :=
  grid_detection exGridFrame exGridChildren rfl (Or.inl rfl) rfl rfl rfl

/-! ## Claim C8 -/

/-- C8 (amended): the typography extracted by the `normalizeNode` pipeline
copies the raw style's font weight verbatim (with the fixed default 400 when
style data is missing); the round-to-nearest-100-and-clamp rule lives only
in the style-mapper's `normalizeFontWeight`, which this pipeline does not
invoke. -/
theorem pipeline_fontWeight (n : FigmaNode) (pid : Option String)
    (ctx : Option ComponentReuse) (nn : NormalizedNode) (te : TextElement)
    (hnn : normalizeNode n pid ctx = some nn) (hte : nn.data = .text te) :
    te.typography.fontWeight =
      (match n.style with
       | some st => st.fontWeight
       | none => 400) := by
  unfold normalizeNode at hnn
  split at hnn
  · cases hnn
  · dsimp only at hnn
    split at hnn
    · cases hnn; cases hte
    · split at hnn
      · cases hnn
        cases hte
        unfold extractTextElement extractTypographyFromNode
        cases n.style <;> rfl
      · split at hnn
        · cases hnn; cases hte
        · split at hnn
          · cases hnn; cases hte
          · split at hnn
            · cases hnn; cases hte
            · cases hnn

/-- C8 (counterexample to the claim as stated): a text node with raw font
weight 450 normalizes to typography with font weight 450 — while the
claimed snapping (as implemented by the style-mapper's `normalizeFontWeight`)
would give 500. -/
theorem pipeline_fontWeight_counterexample :
    (∃ nn te, normalizeNode exText450 none none = some nn ∧ nn.data = .text te ∧
      te.typography.fontWeight = 450) ∧
    normalizeFontWeight 450 = 500 ∧ (450 : ℚ) ≠ 500 := by
  refine ⟨⟨_, _, rfl, rfl, rfl⟩, ?_, by norm_num⟩
  unfold normalizeFontWeight
  norm_num [jsRound]

/-- C8 witness: the amended theorem applied to the concrete 450-weight text
node. -/
theorem pipeline_fontWeight_witness :
    (⟨"Hello", ⟨"Inter", 16, 450, 24, 0, "LEFT", none⟩, none, false⟩ :
        TextElement).typography.fontWeight =
      (match exText450.style with
       | some st => st.fontWeight
       | none => 400) :=
  pipeline_fontWeight exText450 none none
    { id := "t450", name := "Paragraph",
      originalType := .TEXT,
      semanticRole := ⟨.text, 9 / 10, .structural, "Text node"⟩,
      parentId := none, visible := true,
      data := .text ⟨"Hello", ⟨"Inter", 16, 450, 24, 0, "LEFT", none⟩, none, false⟩ }
    ⟨"Hello", ⟨"Inter", 16, 450, 24, 0, "LEFT", none⟩, none, false⟩
    rfl rfl

/-! ## Claim C9 -/

/-- Reading back the key just written. -/
theorem jsMapGet_jsMapSet_self {κ α : Type} [DecidableEq κ] (k : κ) (v : α)
    (l : List (κ × α)) : jsMapGet k (jsMapSet k v l) = some v := by
  induction l with
  | nil => simp [jsMapSet, jsMapGet]
  | cons kv rest ih =>
    unfold jsMapSet
    by_cases h : kv.1 = k
    · rw [if_pos h]
      simp [jsMapGet]
    · rw [if_neg h]
      unfold jsMapGet
      rw [if_neg h]
      exact ih

/-- Writing one key does not affect reads of another. -/
theorem jsMapGet_jsMapSet_ne {κ α : Type} [DecidableEq κ] (k q : κ) (v : α)
    (l : List (κ × α)) (h : ¬k = q) :
    jsMapGet q (jsMapSet k v l) = jsMapGet q l := by
  induction l with
  | nil => simp [jsMapSet, jsMapGet, h]
  | cons kv rest ih =>
    unfold jsMapSet
    by_cases hk : kv.1 = k
    · rw [if_pos hk]
      unfold jsMapGet
      rw [if_neg (by rw [hk] at *; exact h), if_neg (hk ▸ h)]
    · rw [if_neg hk]
      unfold jsMapGet
      split
      · rfl
      · exact ih

/-- Every member of every group built by `typographySizeGroups` satisfies
any predicate holding on the input list. -/
theorem typographySizeGroups_pred (p : TypographyIntent → Prop) :
    ∀ (typos : List TypographyIntent) (acc : List (ℤ × List TypographyIntent)),
      (∀ t ∈ typos, p t) →
      (∀ k g, jsMapGet k acc = some g → ∀ t ∈ g, p t) →
      ∀ k g,
        jsMapGet k
          (typos.foldl
            (fun groups typo =>
              let key := jsRound typo.fontSize
              jsMapSet key ((jsMapGet key groups).getD [] ++ [typo]) groups)
            acc) = some g →
        ∀ t ∈ g, p t := by
  intro typos
  induction typos with
  | nil =>
    intro acc _ hacc k g hget
    exact hacc k g hget
  | cons typo rest ih =>
    intro acc hall hacc k g hget
    rw [List.foldl_cons] at hget
    refine ih _ (fun t ht => hall t (List.mem_cons_of_mem _ ht)) ?_ k g hget
    intro k2 g2 hget2 t ht
    by_cases hk : jsRound typo.fontSize = k2
    · rw [hk, jsMapGet_jsMapSet_self] at hget2
      cases hget2
      rcases List.mem_append.mp ht with hmem | hmem
      · cases hg : jsMapGet k2 acc with
        | none => rw [hg] at hmem; cases hmem
        | some gOld =>
          rw [hg] at hmem
          exact hacc _ _ hg t hmem
      · rw [List.mem_singleton] at hmem
        subst hmem
        exact hall t (List.mem_cons_self _ _)
    · rw [jsMapGet_jsMapSet_ne _ _ _ _ hk] at hget2
      exact hacc k2 g2 hget2 t ht

/-- C9: normalized text nodes carry no `semanticLevel`, so over
pipeline-produced typography every group token of `detectTypographyScale` is
named positionally (`h1`…`h6`, then `body-N` / `caption-N`); the
explicit-semantic-level branch never fires. -/
theorem typography_positional_naming :
    (∀ (n : FigmaNode) (pid : Option String) (ctx : Option ComponentReuse)
        (nn : NormalizedNode) (te : TextElement),
      normalizeNode n pid ctx = some nn → nn.data = .text te →
      te.typography.semanticLevel = none) ∧
    (∀ (typos : List TypographyIntent), (∀ t ∈ typos, t.semanticLevel = none) →
      ∀ (i : ℕ) (tok : DesignToken),
        (detectTypographyScale typos).get? i = some tok →
        ∃ sz, (typographySortedSizes typos).get? i = some sz ∧
          tok.name =
            (if i < 6 then "h" ++ toString (i + 1)
             else if 14 ≤ sz then "body-" ++ toString (i - 5)
             else "caption-" ++ toString (i - 5))) := by
  constructor
  · intro n pid ctx nn te hnn hte
    unfold normalizeNode at hnn
    split at hnn
    · cases hnn
    · dsimp only at hnn
      split at hnn
      · cases hnn; cases hte
      · split at hnn
        · cases hnn
          cases hte
          unfold extractTextElement extractTypographyFromNode
          cases n.style <;> rfl
        · split at hnn
          · cases hnn; cases hte
          · split at hnn
            · cases hnn; cases hte
            · split at hnn
              · cases hnn; cases hte
              · cases hnn
  · intro typos hnone i tok htok
    unfold detectTypographyScale at htok
    split at htok
    · rw [List.get?_nil] at htok
      cases htok
    · dsimp only at htok
      rw [List.get?_map] at htok
      cases henum : (typographySortedSizes typos).enum.get? i with
      | none => rw [henum] at htok; cases htok
      | some p =>
        rw [henum] at htok
        have hp := List.get?_enum (typographySortedSizes typos) i
        rw [henum] at hp
        cases hsz : (typographySortedSizes typos).get? i with
        | none => rw [hsz] at hp; cases hp
        | some sz =>
          rw [hsz] at hp
          cases hp
          refine ⟨sz, rfl, ?_⟩
          cases htok
          dsimp only
          have hrep :
              (((jsMapGet sz (typographySizeGroups typos)).getD
                []).headD emptyTypography).semanticLevel = none := by
            cases hg : jsMapGet sz (typographySizeGroups typos) with
            | none => rfl
            | some g =>
              have hmem := typographySizeGroups_pred
                (fun t => t.semanticLevel = none) typos []
                hnone (by intro k g2 hget; cases hget) sz g hg
              cases g with
              | nil => rfl
              | cons t ts => exact hmem t (List.mem_cons_self _ _)
          rw [hrep]
          dsimp only
          split
          · rfl
          · split
            · rfl
            · rfl

/-- C9 witness: the positional-naming theorem applied to a single
pipeline-shaped typography intent (font size 16, no semantic level). -/
theorem typography_positional_naming_witness :
    (⟨"Hello", exTypo450, none, false⟩ : TextElement).typography.semanticLevel = none ∧
    ∃ sz, (typographySortedSizes [exTypo450]).get? 0 = some sz ∧
      ({ name := "h1", category := "typography",
         value := .typographyV ⟨"Inter", 16, 450, 24, 0, "LEFT"⟩,
         description := .headingLevel 1,
         usage := .fontUsage 16 1 } : DesignToken).name =
        (if 0 < 6 then "h" ++ toString (0 + 1)
         else if 14 ≤ sz then "body-" ++ toString (0 - 5)
         else "caption-" ++ toString (0 - 5)) := by
  have H := typography_positional_naming
  have hround : jsRound (16 : ℚ) = 16 := by
    unfold jsRound
    exact Int.floor_eq_iff.mpr ⟨by norm_num, by norm_num⟩
  have hkey : jsRound exTypo450.fontSize = 16 := hround
  have h1 : typographySizeGroups [exTypo450] = [(16, [exTypo450])] := by
    unfold typographySizeGroups
    rw [List.foldl_cons, List.foldl_nil]
    dsimp only
    rw [hkey]
    rfl
  have h2 : typographySortedSizes [exTypo450] = [16] := by
    unfold typographySortedSizes
    rw [h1]
    rfl
  have h3 : detectTypographyScale [exTypo450] =
      [{ name := "h1", category := "typography",
         value := .typographyV ⟨"Inter", 16, 450, 24, 0, "LEFT"⟩,
         description := .headingLevel 1,
         usage := .fontUsage 16 1 }] := by
    unfold detectTypographyScale
    rw [if_neg (by simp)]
    dsimp only
    rw [h2, h1]
    rfl
  refine ⟨?_, ?_⟩
  · exact H.1 exText450 none none
      { id := "t450", name := "Paragraph", originalType := .TEXT,
        semanticRole := ⟨.text, 9 / 10, .structural, "Text node"⟩,
        parentId := none, visible := true,
        data := .text ⟨"Hello", exTypo450, none, false⟩ }
      ⟨"Hello", exTypo450, none, false⟩ rfl rfl
  · refine H.2 [exTypo450] ?_ 0 _ ?_
    · intro t ht
      rw [List.mem_singleton] at ht
      subst ht
      rfl
    · rw [h3]
      rfl

/-! ## Claim C4 -/

/-- `insertAscQ` is Mathlib's ordered insert for `≤`. -/
theorem insertAscQ_eq (x : ℚ) (l : List ℚ) :
    insertAscQ x l = List.orderedInsert (· ≤ ·) x l := by
  induction l with
  | nil => rfl
  | cons y ys ih =>
    unfold insertAscQ List.orderedInsert
    rw [ih]

/-- `sortAscQ` is Mathlib's insertion sort for `≤`. -/
theorem sortAscQ_eq (l : List ℚ) : sortAscQ l = List.insertionSort (· ≤ ·) l := by
  induction l with
  | nil => rfl
  | cons y ys ih =>
    show insertAscQ y (sortAscQ ys) = List.orderedInsert (· ≤ ·) y (List.insertionSort (· ≤ ·) ys)
    rw [ih, insertAscQ_eq]

/-- The sort is a permutation of its input. -/
theorem sortAscQ_perm (l : List ℚ) : (sortAscQ l).Perm l := by
  rw [sortAscQ_eq]
  exact List.perm_insertionSort _ l

/-- The sort is ascending. -/
theorem sortAscQ_sorted (l : List ℚ) : (sortAscQ l).Sorted (· ≤ ·) := by
  rw [sortAscQ_eq]
  exact List.sorted_insertionSort _ l

/-- Evaluation rule for `jsRound`. -/
theorem jsRound_eval (q : ℚ) (z : ℤ) (h1 : (z : ℚ) ≤ q + 1 / 2)
    (h2 : q + 1 / 2 < z + 1) : jsRound q = z := by
  unfold jsRound
  exact Int.floor_eq_iff.mpr ⟨h1, by push_cast; linarith⟩

/-- `Math.round` fixes natural numbers. -/
theorem jsRound_natCast (k : ℕ) : jsRound (k : ℚ) = k := by
  apply jsRound_eval
  · push_cast
    linarith
  · push_cast
    linarith

/-- `jsGcd` on naturals is `Nat.gcd`. -/
theorem jsGcd_nat (a b : ℕ) : jsGcd (a : ℚ) (b : ℚ) = (Nat.gcd a b : ℚ) := by
  have h := jsGcd_intCast (a : ℤ) (b : ℤ) (by positivity) (by positivity)
  rw [Int.gcd_natCast_natCast] at h
  push_cast at h
  exact h

/-- The `findGCD` fold over natural values computes the `Nat.gcd` fold of
their roundings. -/
theorem foldl_jsGcd_nat (xs : List ℚ) (a : ℕ)
    (hxs : ∀ x ∈ xs, ∃ k : ℕ, x = (k : ℚ)) :
    xs.foldl (fun acc num => jsGcd acc ((jsRound num : ℤ) : ℚ)) ((a : ℕ) : ℚ) =
      ((xs.map (fun x => (jsRound x).toNat)).foldl Nat.gcd a : ℕ) := by
  induction xs generalizing a with
  | nil => rfl
  | cons x rest ih =>
    obtain ⟨k, hk⟩ := hxs x (List.mem_cons_self _ _)
    subst hk
    rw [List.foldl_cons, List.map_cons, List.foldl_cons]
    rw [jsRound_natCast]
    have hcast : (((k : ℕ) : ℤ) : ℚ) = ((k : ℕ) : ℚ) := by push_cast; ring
    rw [hcast, jsGcd_nat]
    rw [show ((k : ℕ) : ℤ).toNat = k from rfl]
    exact ih (a.gcd k) (fun x hx => hxs x (List.mem_cons_of_mem _ hx))

/-- C4 (amended): `detectSpacingSystem` drops zeros, dedupes and sorts
ascending; each token reports its value and the multiplier
`round(value / baseUnit)` of the base unit; a single surviving value is its
own base unit; and for integer-valued inputs the base unit is the GCD of
all (rounded) values — in particular `[8, 16, 24]` yields base unit 8 with
multipliers 1, 2, 3.  (For non-integer inputs the fold seeds with the first
value unrounded, so the base unit can differ from the GCD of the rounded
values.) -/
theorem detectSpacingSystem_spec :
    (∀ spacings : List ℚ, (spacingUniqueValues spacings).Sorted (· ≤ ·)) ∧
    (∀ spacings : List ℚ, (spacingUniqueValues spacings).Nodup) ∧
    (∀ (spacings : List ℚ) (x : ℚ),
      x ∈ spacingUniqueValues spacings ↔ x ∈ spacings ∧ 0 < x) ∧
    (∀ (spacings : List ℚ) (i : ℕ) (x : ℚ),
      (spacingUniqueValues spacings).get? i = some x →
      ∃ tok, (detectSpacingSystem spacings).get? i = some tok ∧
        tok.value = .spacingV x ∧
        tok.description =
          .spacingDesc (jsRound (x / spacingBaseUnit spacings))
            (spacingBaseUnit spacings)) ∧
    (∀ (spacings : List ℚ) (x : ℚ),
      spacingUniqueValues spacings = [x] → spacingBaseUnit spacings = x) ∧
    (∀ spacings : List ℚ, (∀ s ∈ spacings, ∃ k : ℕ, s = (k : ℚ)) →
      spacingBaseUnit spacings =
        (((spacingUniqueValues spacings).map
          (fun x => (jsRound x).toNat)).foldl Nat.gcd 0 : ℕ)) ∧
    detectSpacingSystem [8, 16, 24] =
      [⟨"spacing-xs", "spacing", .spacingV 8, .spacingDesc 1 8, .spacingUsage⟩,
       ⟨"spacing-sm", "spacing", .spacingV 16, .spacingDesc 2 8, .spacingUsage⟩,
       ⟨"spacing-md", "spacing", .spacingV 24, .spacingDesc 3 8, .spacingUsage⟩] := by
  have hmem : ∀ (spacings : List ℚ) (x : ℚ),
      x ∈ spacingUniqueValues spacings ↔ x ∈ spacings ∧ 0 < x := by
    intro spacings x
    unfold spacingUniqueValues
    rw [(sortAscQ_perm _).mem_iff, List.mem_dedup, List.mem_filter]
    simp
  refine ⟨?_, ?_, hmem, ?_, ?_, ?_, ?_⟩
  · intro spacings
    unfold spacingUniqueValues
    exact sortAscQ_sorted _
  · intro spacings
    unfold spacingUniqueValues
    exact (sortAscQ_perm _).nodup_iff.mpr (List.nodup_dedup _)
  · intro spacings i x hx
    unfold detectSpacingSystem
    split
    · rename_i hemp
      rw [List.isEmpty_iff.mp hemp] at hx
      rw [show spacingUniqueValues [] = [] from rfl] at hx
      cases hx
    · dsimp only
      split
      · rename_i hemp2
        rw [List.isEmpty_iff.mp hemp2] at hx
        cases hx
      · rw [List.get?_map, List.get?_enum, hx]
        exact ⟨_, rfl, rfl, rfl⟩
  · intro spacings x hu
    unfold spacingBaseUnit findGCD
    rw [hu]
    rfl
  · intro spacings hint
    have humem : ∀ y ∈ spacingUniqueValues spacings, ∃ k : ℕ, y = (k : ℚ) := by
      intro y hy
      exact hint y ((hmem spacings y).mp hy).1
    cases hu : spacingUniqueValues spacings with
    | nil =>
      unfold spacingBaseUnit findGCD
      rw [hu]
      simp
    | cons x xs =>
      obtain ⟨k, hk⟩ := humem x (hu ▸ List.mem_cons_self _ _)
      unfold spacingBaseUnit findGCD
      rw [hu, hk]
      dsimp only
      rw [foldl_jsGcd_nat xs k
        (fun y hy => humem y (hu ▸ List.mem_cons_of_mem _ hy))]
      rw [List.map_cons, List.foldl_cons, jsRound_natCast]
      rw [show ((k : ℕ) : ℤ).toNat = k from rfl, Nat.gcd_zero_left]
  · have hu : spacingUniqueValues [8, 16, 24] = [8, 16, 24] := by decide
    have hr16 : jsRound (16 : ℚ) = 16 := jsRound_eval _ 16 (by norm_num) (by norm_num)
    have hr24 : jsRound (24 : ℚ) = 24 := jsRound_eval _ 24 (by norm_num) (by norm_num)
    have hg1 : jsGcd (8 : ℚ) (16 : ℚ) = 8 := by
      have h := jsGcd_nat 8 16
      norm_num at h
      exact_mod_cast h
    have hg2 : jsGcd (8 : ℚ) (24 : ℚ) = 8 := by
      have h := jsGcd_nat 8 24
      norm_num at h
      exact_mod_cast h
    have hbase : findGCD [8, 16, 24] = 8 := by
      unfold findGCD
      dsimp only
      rw [List.foldl_cons, List.foldl_cons, List.foldl_nil]
      rw [hr16, hr24]
      rw [show (((16 : ℤ) : ℚ)) = (16 : ℚ) by push_cast; ring]
      rw [show (((24 : ℤ) : ℚ)) = (24 : ℚ) by push_cast; ring]
      rw [hg1, hg2]
    have hm1 : jsRound ((8 : ℚ) / 8) = 1 := jsRound_eval _ 1 (by norm_num) (by norm_num)
    have hm2 : jsRound ((16 : ℚ) / 8) = 2 := jsRound_eval _ 2 (by norm_num) (by norm_num)
    have hm3 : jsRound ((24 : ℚ) / 8) = 3 := jsRound_eval _ 3 (by norm_num) (by norm_num)
    unfold detectSpacingSystem
    rw [if_neg (by simp)]
    dsimp only
    rw [show spacingUniqueValues [8, 16, 24] = [8, 16, 24] from hu, hbase]
    rw [show ([8, 16, 24] : List ℚ).enum = [(0, 8), (1, 16), (2, 24)] from rfl]
    rw [List.map_cons, List.map_cons, List.map_cons, List.map_nil]
    dsimp only
    rw [hm1, hm2, hm3]
    rw [if_neg (by simp)]
    rfl

/-- C4 (counterexample to the claim as stated): on input `[2.5, 8]` the
computed base unit is `0.5` — the Euclidean fold seeds with the first value
unrounded — while the GCD of the rounded values (`gcd(3, 8)`) is `1`. -/
theorem detectSpacingSystem_gcd_counterexample :
    spacingBaseUnit [5 / 2, 8] = 1 / 2 ∧
    Nat.gcd (jsRound ((5 : ℚ) / 2)).toNat (jsRound (8 : ℚ)).toNat = 1 ∧
    spacingBaseUnit [5 / 2, 8] ≠
      ((Nat.gcd (jsRound ((5 : ℚ) / 2)).toNat (jsRound (8 : ℚ)).toNat : ℕ) : ℚ) := by
  have hr1 : jsRound ((5 : ℚ) / 2) = 3 := jsRound_eval _ 3 (by norm_num) (by norm_num)
  have hr2 : jsRound (8 : ℚ) = 8 := jsRound_eval _ 8 (by norm_num) (by norm_num)
  have hfil : List.filter (fun s => decide ((0 : ℚ) < s)) [5 / 2, 8] = [5 / 2, 8] := by
    rw [List.filter_cons, List.filter_cons, List.filter_nil]
    norm_num
  have hded : ([5 / 2, 8] : List ℚ).dedup = [5 / 2, 8] := by
    rw [List.dedup_cons_of_not_mem (by norm_num)]
    rw [List.dedup_cons_of_not_mem (by simp)]
    rw [List.dedup_nil]
  have hsort : sortAscQ [5 / 2, 8] = [5 / 2, 8] := by
    unfold sortAscQ
    rw [List.foldr_cons, List.foldr_cons, List.foldr_nil]
    unfold insertAscQ
    rw [show insertAscQ (8 : ℚ) [] = [8] from rfl]
    dsimp only
    rw [if_pos (by norm_num : (5 : ℚ) / 2 ≤ 8)]
  have hu : spacingUniqueValues [5 / 2, 8] = [5 / 2, 8] := by
    unfold spacingUniqueValues
    rw [hfil, hded, hsort]
  have hgcd : jsGcd ((5 : ℚ) / 2) 8 = 1 / 2 := by
    rw [jsGcd_step _ _ (by norm_num : (8 : ℚ) ≠ 0)]
    have hm1 : jsMod ((5 : ℚ) / 2) 8 = 5 / 2 := by
      unfold jsMod jsTrunc
      norm_num
    rw [hm1]
    rw [jsGcd_step _ _ (by norm_num : (5 : ℚ) / 2 ≠ 0)]
    have hm2 : jsMod (8 : ℚ) (5 / 2) = 1 / 2 := by
      unfold jsMod jsTrunc
      norm_num
    rw [hm2]
    rw [jsGcd_step _ _ (by norm_num : (1 : ℚ) / 2 ≠ 0)]
    have hm3 : jsMod ((5 : ℚ) / 2) (1 / 2) = 0 := by
      unfold jsMod jsTrunc
      norm_num
    rw [hm3, jsGcd_zero]
  have hbase : spacingBaseUnit [5 / 2, 8] = 1 / 2 := by
    unfold spacingBaseUnit findGCD
    rw [hu]
    dsimp only
    rw [List.foldl_cons, List.foldl_nil, hr2]
    rw [show (((8 : ℤ) : ℚ)) = (8 : ℚ) by push_cast; ring]
    exact hgcd
  refine ⟨hbase, ?_, ?_⟩
  · rw [hr1, hr2]
    rfl
  · rw [hbase, hr1, hr2]
    rw [show (Int.toNat 3).gcd (Int.toNat 8) = 1 from rfl]
    norm_num

/-- C4 witness: the spacing theorem applied at concrete inputs — the
single-element clause at `[7]`. -/
theorem detectSpacingSystem_spec_witness :
    spacingBaseUnit ([7] : List ℚ) = 7 :=
  detectSpacingSystem_spec.2.2.2.2.1 [7] 7 (by decide)

/-! ## Claim C5 -/

/-- Hex digit characters decode to their value. -/
theorem hexDigitVal_hexDigitChar : ∀ k : ℕ, k < 16 → hexDigitVal (hexDigitChar k) = k := by
  decide

/-- Byte-level round trip: parsing the two emitted hex digits recovers the
byte. -/
theorem parseHex2_toHexByte (n : ℕ) (h : n ≤ 255) : parseHex2 (toHexByte n) = n := by
  unfold parseHex2 toHexByte
  dsimp only
  rw [hexDigitVal_hexDigitChar (n / 16) (by omega),
    hexDigitVal_hexDigitChar (n % 16) (Nat.mod_lt _ (by norm_num))]
  omega

/-- The channel byte of an in-range channel is at most 255, and equals the
rounded scaled value. -/
theorem channelByte_spec (c : ℚ) (h0 : 0 ≤ c) (h1 : c ≤ 1) :
    channelByte c ≤ 255 ∧ ((channelByte c : ℕ) : ℚ) = ((jsRound (c * 255) : ℤ) : ℚ) := by
  have hz0 : (0 : ℤ) ≤ jsRound (c * 255) := by
    unfold jsRound
    apply Int.le_floor.mpr
    push_cast
    nlinarith
  have hzlt : jsRound (c * 255) < 256 := by
    have hfl := Int.floor_le (c * 255 + 1 / 2)
    have hq : ((jsRound (c * 255) : ℤ) : ℚ) < 256 := by
      unfold jsRound
      nlinarith
    exact_mod_cast hq
  constructor
  · unfold channelByte
    omega
  · unfold channelByte
    exact_mod_cast congrArg (fun z : ℤ => (z : ℚ)) (Int.toNat_of_nonneg hz0)

/-- Rounding a scaled channel is accurate to half a unit. -/
theorem jsRound_accuracy (x : ℚ) : |((jsRound x : ℤ) : ℚ) - x| ≤ 1 / 2 := by
  unfold jsRound
  have h1 := Int.floor_le (x + 1 / 2)
  have h2 := Int.lt_floor_add_one (x + 1 / 2)
  rw [abs_le]
  constructor <;> [linarith; linarith]

/-- Taking the first two characters of a 2-character block. -/
theorem take_two_block (a b : List Char) (ha : a.length = 2) :
    (a ++ b).take 2 = a := by
  rw [← ha]
  exact List.take_left a b

/-- Dropping the first two characters of a 2-character block. -/
theorem drop_two_block (a b : List Char) (ha : a.length = 2) :
    (a ++ b).drop 2 = b := by
  rw [← ha]
  exact List.drop_left a b

/-- `hexToRgba` on a `#`-prefixed character list, componentwise. -/
theorem hexToRgba_mk_hash (L : List Char) :
    hexToRgba (String.mk ('#' :: L)) =
      { r := (parseHex2 (L.take 2) : ℚ) / 255
        g := (parseHex2 ((L.drop 2).take 2) : ℚ) / 255
        b := (parseHex2 ((L.drop 4).take 2) : ℚ) / 255
        a := if L.length = 8 then (parseHex2 ((L.drop 6).take 2) : ℚ) / 255 else 1 } :=
  rfl

/-- C5: for channels in `[0, 1]`, decoding the emitted hex string recovers
every channel to within `1/255` (the alpha digits are emitted only when
`a < 1`; a six-digit string decodes to `a = 1`). -/
theorem hexToRgba_rgbaToHex (c : Color)
    (hr0 : 0 ≤ c.r) (hr1 : c.r ≤ 1) (hg0 : 0 ≤ c.g) (hg1 : c.g ≤ 1)
    (hb0 : 0 ≤ c.b) (hb1 : c.b ≤ 1) (ha0 : 0 ≤ c.a) (ha1 : c.a ≤ 1) :
    |(hexToRgba (rgbaToHex c)).r - c.r| ≤ 1 / 255 ∧
    |(hexToRgba (rgbaToHex c)).g - c.g| ≤ 1 / 255 ∧
    |(hexToRgba (rgbaToHex c)).b - c.b| ≤ 1 / 255 ∧
    |(hexToRgba (rgbaToHex c)).a - c.a| ≤ 1 / 255 := by
  have hlen : ∀ x : ℚ, (toHexByte (channelByte x)).length = 2 := fun x => rfl
  have haccur : ∀ (x : ℚ), 0 ≤ x → x ≤ 1 →
      |(parseHex2 (toHexByte (channelByte x)) : ℚ) / 255 - x| ≤ 1 / 255 := by
    intro x hx0 hx1
    obtain ⟨hle, heq⟩ := channelByte_spec x hx0 hx1
    rw [parseHex2_toHexByte _ hle, heq]
    have hacc := jsRound_accuracy (x * 255)
    rw [abs_le] at hacc ⊢
    constructor
    · rw [div_sub' _ _ _ (by norm_num : (255 : ℚ) ≠ 0)]
      rw [le_div_iff (by norm_num : (0 : ℚ) < 255)]
      linarith [hacc.1]
    · rw [div_sub' _ _ _ (by norm_num : (255 : ℚ) ≠ 0)]
      rw [div_le_iff (by norm_num : (0 : ℚ) < 255)]
      linarith [hacc.2]
  set R := toHexByte (channelByte c.r) with hR
  set G := toHexByte (channelByte c.g) with hG
  set B := toHexByte (channelByte c.b) with hB
  set A := toHexByte (channelByte c.a) with hA
  by_cases ha : c.a < 1
  · -- eight-digit form
    have hhex : rgbaToHex c = String.mk ('#' :: (R ++ G ++ B ++ A)) := by
      unfold rgbaToHex
      rw [if_pos ha]
      rw [hR, hG, hB, hA]
      rfl
    rw [hhex, hexToRgba_mk_hash]
    have e1 : (R ++ G ++ B ++ A).take 2 = R := by
      rw [List.append_assoc, List.append_assoc]
      exact take_two_block R _ (hlen _)
    have e2 : ((R ++ G ++ B ++ A).drop 2).take 2 = G := by
      rw [List.append_assoc, List.append_assoc]
      rw [drop_two_block R _ (hlen _)]
      rw [← List.append_assoc]
      exact take_two_block G _ (hlen _)
    have e3 : ((R ++ G ++ B ++ A).drop 4) = B ++ A := by
      rw [List.append_assoc, List.append_assoc]
      rw [show (4 : ℕ) = 2 + 2 from rfl, ← List.drop_drop]
      rw [drop_two_block R _ (hlen _)]
      rw [← List.append_assoc]
      exact drop_two_block G _ (hlen _)
    have e4 : ((R ++ G ++ B ++ A).drop 4).take 2 = B := by
      rw [e3]
      exact take_two_block B _ (hlen _)
    have e5 : ((R ++ G ++ B ++ A).drop 6) = A := by
      rw [show (6 : ℕ) = 4 + 2 from rfl, ← List.drop_drop, e3]
      exact drop_two_block B _ (hlen _)
    have e6 : (R ++ G ++ B ++ A).length = 8 := by
      simp [List.length_append, hlen, hR, hG, hB, hA]
    dsimp only
    rw [e1, e2, e4, e5, if_pos e6]
    exact ⟨haccur c.r hr0 hr1, haccur c.g hg0 hg1, haccur c.b hb0 hb1,
      haccur c.a ha0 ha1⟩
  · -- six-digit form, alpha is exactly 1
    have haeq : c.a = 1 := le_antisymm ha1 (not_lt.mp ha)
    have hhex : rgbaToHex c = String.mk ('#' :: (R ++ G ++ B)) := by
      unfold rgbaToHex
      rw [if_neg ha]
    rw [hhex, hexToRgba_mk_hash]
    have e1 : (R ++ G ++ B).take 2 = R := by
      rw [List.append_assoc]
      exact take_two_block R _ (hlen _)
    have e2 : ((R ++ G ++ B).drop 2).take 2 = G := by
      rw [List.append_assoc]
      rw [drop_two_block R _ (hlen _)]
      exact take_two_block G _ (hlen _)
    have e4 : ((R ++ G ++ B).drop 4).take 2 = B := by
      rw [show (4 : ℕ) = 2 + 2 from rfl, ← List.drop_drop]
      rw [List.append_assoc, drop_two_block R _ (hlen _)]
      rw [drop_two_block G _ (hlen _)]
      exact List.take_of_length_le (le_of_eq (hlen _))
    have e6 : ¬(R ++ G ++ B).length = 8 := by
      simp [List.length_append, hlen, hR, hG, hB]
    dsimp only
    rw [e1, e2, e4, if_neg e6, haeq]
    refine ⟨haccur c.r hr0 hr1, haccur c.g hg0 hg1, haccur c.b hb0 hb1, by norm_num⟩

/-- C5 witness: the round-trip theorem applied to a concrete color. -/
theorem hexToRgba_rgbaToHex_witness :
    |(hexToRgba (rgbaToHex ⟨1, 0, 1, 1⟩)).r - (⟨1, 0, 1, 1⟩ : Color).r| ≤ 1 / 255 ∧
    |(hexToRgba (rgbaToHex ⟨1, 0, 1, 1⟩)).g - (⟨1, 0, 1, 1⟩ : Color).g| ≤ 1 / 255 ∧
    |(hexToRgba (rgbaToHex ⟨1, 0, 1, 1⟩)).b - (⟨1, 0, 1, 1⟩ : Color).b| ≤ 1 / 255 ∧
    |(hexToRgba (rgbaToHex ⟨1, 0, 1, 1⟩)).a - (⟨1, 0, 1, 1⟩ : Color).a| ≤ 1 / 255 :=
  hexToRgba_rgbaToHex ⟨1, 0, 1, 1⟩ (by norm_num) (by norm_num) (by norm_num)
    (by norm_num) (by norm_num) (by norm_num) (by norm_num) (by norm_num)

/-! ## Claims C6 / C7 / C10 — map-level lemmas -/

/-- A key is absent exactly when it is not among the stored keys. -/
theorem jsMapGet_eq_none_iff {κ α : Type} [DecidableEq κ] (k : κ) (l : List (κ × α)) :
    jsMapGet k l = none ↔ k ∉ l.map Prod.fst := by
  induction l with
  | nil => simp [jsMapGet]
  | cons kv rest ih =>
    unfold jsMapGet
    by_cases h : kv.1 = k
    · rw [if_pos h]
      simp [h]
    · rw [if_neg h, ih]
      have h2 : ¬k = kv.1 := fun hh => h hh.symm
      simp [List.mem_cons, h2]

/-- Deleting a key from a `Map` erases it from the key list. -/
theorem map_fst_jsMapDelete {κ α : Type} [DecidableEq κ] (k : κ) (l : List (κ × α)) :
    (jsMapDelete k l).map Prod.fst = (l.map Prod.fst).erase k := by
  induction l with
  | nil => simp [jsMapDelete]
  | cons kv rest ih =>
    unfold jsMapDelete
    by_cases h : kv.1 = k
    · rw [if_pos h]
      simp [List.map_cons, h, List.erase_cons_head]
    · rw [if_neg h]
      simp only [List.map_cons]
      rw [List.erase_cons_tail]
      · rw [ih]
      · simp [h]

/-- Setting a key keeps the key list if the key was present, else appends it. -/
theorem map_fst_jsMapSet {κ α : Type} [DecidableEq κ] (k : κ) (v : α) (l : List (κ × α)) :
    (jsMapSet k v l).map Prod.fst =
      if k ∈ l.map Prod.fst then l.map Prod.fst else l.map Prod.fst ++ [k] := by
  induction l with
  | nil => simp [jsMapSet]
  | cons kv rest ih =>
    unfold jsMapSet
    by_cases h : kv.1 = k
    · rw [if_pos h]
      simp [h]
    · rw [if_neg h]
      have h2 : ¬k = kv.1 := fun hh => h hh.symm
      simp only [List.map_cons, List.mem_cons, h2, false_or]
      rw [ih]
      by_cases hm : k ∈ rest.map Prod.fst
      · rw [if_pos hm, if_pos hm]
      · rw [if_neg hm, if_neg hm]
        simp

/-- The size of a `Map` after `set`: unchanged on overwrite, one more on insert. -/
theorem length_jsMapSet {κ α : Type} [DecidableEq κ] (k : κ) (v : α) (l : List (κ × α)) :
    (jsMapSet k v l).length =
      if k ∈ l.map Prod.fst then l.length else l.length + 1 := by
  have h1 : (jsMapSet k v l).length =
      (if k ∈ l.map Prod.fst then l.map Prod.fst else l.map Prod.fst ++ [k]).length := by
    rw [← map_fst_jsMapSet, List.length_map]
  by_cases hm : k ∈ l.map Prod.fst
  · rw [if_pos hm] at h1
    rw [if_pos hm, h1, List.length_map]
  · rw [if_neg hm] at h1
    rw [if_neg hm, h1]
    simp

/-- Deleting a present key shrinks the `Map` by exactly one entry. -/
theorem length_jsMapDelete_mem {κ α : Type} [DecidableEq κ] (k : κ) (l : List (κ × α))
    (h : k ∈ l.map Prod.fst) : (jsMapDelete k l).length + 1 = l.length := by
  have h1 : (jsMapDelete k l).length = ((l.map Prod.fst).erase k).length := by
    rw [← map_fst_jsMapDelete, List.length_map]
  rw [h1, List.length_erase_of_mem h]
  have hml : (l.map Prod.fst).length = l.length := List.length_map _ _
  have hpos : 0 < (l.map Prod.fst).length := List.length_pos_of_mem h
  omega

/-- `Map.has` decides membership in the key list. -/
theorem jsMapHas_iff {κ α : Type} [DecidableEq κ] (k : κ) (l : List (κ × α)) :
    jsMapHas k l = true ↔ k ∈ l.map Prod.fst := by
  unfold jsMapHas
  rw [Option.isSome_iff_ne_none]
  constructor
  · intro h
    by_contra hm
    exact h ((jsMapGet_eq_none_iff k l).mpr hm)
  · intro hm h
    exact (jsMapGet_eq_none_iff k l).mp h hm

/-- Folded erasure never introduces an element. -/
theorem not_mem_foldl_erase_of_not_mem {α : Type} [DecidableEq α] (a : α)
    (ks : List α) (l : List α) (h : a ∉ l) :
    a ∉ ks.foldl (fun acc x => acc.erase x) l := by
  induction ks generalizing l with
  | nil => simpa using h
  | cons b ks ih =>
    simp only [List.foldl_cons]
    exact ih (l.erase b) (fun hm => h (List.mem_of_mem_erase hm))

/-- Folded erasure over a duplicate-free list removes every listed element. -/
theorem not_mem_foldl_erase_of_mem {α : Type} [DecidableEq α] (a : α)
    (ks : List α) (l : List α) (hnd : l.Nodup) (ha : a ∈ ks) :
    a ∉ ks.foldl (fun acc x => acc.erase x) l := by
  induction ks generalizing l with
  | nil => exact absurd ha (List.not_mem_nil a)
  | cons b ks ih =>
    simp only [List.foldl_cons]
    rcases List.mem_cons.mp ha with hab | ha2
    · subst hab
      exact not_mem_foldl_erase_of_not_mem a ks (l.erase a) (hnd.not_mem_erase)
    · exact ih (l.erase b) (hnd.erase b) ha2

/-- Folded `Map.delete` acts on the key list as folded erasure. -/
theorem map_fst_foldl_jsMapDelete {κ α : Type} [DecidableEq κ]
    (ks : List κ) (l : List (κ × α)) :
    ((ks.foldl (fun c k => jsMapDelete k c) l).map Prod.fst)
      = ks.foldl (fun acc x => acc.erase x) (l.map Prod.fst) := by
  induction ks generalizing l with
  | nil => simp
  | cons b ks ih =>
    simp only [List.foldl_cons]
    rw [ih, map_fst_jsMapDelete]

/-! ## Claims C6, C7 and C10 -/

/-- C6: with a nonnegative TTL, a `set` followed immediately by a `get` of
the same key returns the stored value; and a `get` of an entry whose age
`now - timestamp` exceeds `ttl * 1000` milliseconds returns a miss and
removes the entry from both the entry map and the access-order list
(expiration is checked lazily at `get` time). -/
theorem memory_cache_set_get_expiry {V : Type} (now : ℚ) (s : MemoryCache V)
    (k : String) (v : V) (ttl : ℚ) (e : CacheEntry V)
    (httl : 0 ≤ ttl)
    (hcn : (s.cache.map Prod.fst).Nodup)
    (han : s.accessOrder.Nodup)
    (he : jsMapGet k s.cache = some e)
    (hexp : e.ttl * 1000 < now - e.timestamp) :
    (MemoryCache.get now (MemoryCache.set now s k v ttl) k).1 = some v ∧
    (MemoryCache.get now s k).1 = none ∧
    jsMapGet k (MemoryCache.get now s k).2.cache = none ∧
    k ∉ (MemoryCache.get now s k).2.accessOrder := by
  have hnotexp : ¬(ttl * 1000 < now - now) := by
    rw [sub_self]
    exact not_lt.mpr (mul_nonneg httl (by norm_num))
  refine ⟨?_, ?_, ?_, ?_⟩
  · unfold MemoryCache.set MemoryCache.get
    dsimp only
    rw [jsMapGet_jsMapSet_self]
    dsimp only
    rw [if_neg hnotexp]
  · unfold MemoryCache.get
    rw [he]
    dsimp only
    rw [if_pos hexp]
  · unfold MemoryCache.get
    rw [he]
    dsimp only
    rw [if_pos hexp]
    dsimp only
    rw [jsMapGet_eq_none_iff, map_fst_jsMapDelete]
    exact hcn.not_mem_erase
  · unfold MemoryCache.get
    rw [he]
    dsimp only
    rw [if_pos hexp]
    dsimp only
    exact han.not_mem_erase

/-- C6 witness: the theorem applied to a concrete one-entry cache whose
entry (TTL 1 s, written at 0) is read at time 2000 ms. -/
theorem memory_cache_set_get_expiry_witness :
    (MemoryCache.get 2000 (MemoryCache.set 2000 exCache6 "a" 7 3) "a").1 = some 7 ∧
    (MemoryCache.get 2000 exCache6 "a").1 = none ∧
    jsMapGet "a" (MemoryCache.get 2000 exCache6 "a").2.cache = none ∧
    "a" ∉ (MemoryCache.get 2000 exCache6 "a").2.accessOrder :=
  memory_cache_set_get_expiry 2000 exCache6 "a" 7 3 ⟨5, 0, 1⟩
    (by norm_num) (by decide) (by decide) rfl
    (by show (1 : ℚ) * 1000 < 2000 - 0; norm_num)

/-- C7: for a store with duplicate-free keys whose access order tracks
exactly the cached keys and whose size is within capacity: a `set` of a new
key at capacity (size = maxSize) evicts exactly the least-recently-accessed
key (the resulting key list is the old one with the LRU key erased and the
new key appended); a `set` of an existing key evicts nothing; every `set`
and every successful non-expired `get` moves the key to the
most-recently-used end of the access order; and the size after a `set`
never exceeds `maxSize`. -/
theorem memory_lru_eviction {V : Type} (now : ℚ) (s : MemoryCache V)
    (k : String) (v : V) (ttl : ℚ)
    (hmax : 1 ≤ s.maxSize)
    (hnodup : (s.cache.map Prod.fst).Nodup)
    (hmem : ∀ x, x ∈ s.accessOrder ↔ x ∈ s.cache.map Prod.fst)
    (hlen : s.cache.length ≤ s.maxSize) :
    ((s.cache.length = s.maxSize ∧ jsMapHas k s.cache = false) →
      ∀ lru rest, s.accessOrder = lru :: rest →
        (MemoryCache.set now s k v ttl).cache.map Prod.fst
          = ((s.cache.map Prod.fst).erase lru) ++ [k]) ∧
    (jsMapHas k s.cache = true →
      (MemoryCache.set now s k v ttl).cache.map Prod.fst = s.cache.map Prod.fst) ∧
    ((MemoryCache.set now s k v ttl).accessOrder).getLast? = some k ∧
    (∀ e, jsMapGet k s.cache = some e → ¬e.ttl * 1000 < now - e.timestamp →
      (MemoryCache.get now s k).2.accessOrder = s.accessOrder.erase k ++ [k]) ∧
    (MemoryCache.set now s k v ttl).cache.length ≤ s.maxSize := by
  refine ⟨?_, ?_, ?_, ?_, ?_⟩
  · rintro ⟨hfull, hnew⟩ lru rest hacc
    unfold MemoryCache.set
    dsimp only
    rw [if_pos ⟨le_of_eq hfull.symm, hnew⟩]
    unfold MemoryCache.evictLRU
    rw [hacc]
    dsimp only
    rw [map_fst_jsMapSet]
    have hk : k ∉ (jsMapDelete lru s.cache).map Prod.fst := by
      rw [map_fst_jsMapDelete]
      intro hmem2
      have h3 : k ∈ s.cache.map Prod.fst := List.mem_of_mem_erase hmem2
      rw [← jsMapHas_iff, hnew] at h3
      exact Bool.false_ne_true h3
    rw [if_neg hk, map_fst_jsMapDelete]
  · intro hhas
    unfold MemoryCache.set
    dsimp only
    have hcond : ¬(s.maxSize ≤ s.cache.length ∧ jsMapHas k s.cache = false) := by
      rintro ⟨_, hf⟩
      rw [hhas] at hf
      exact Bool.false_ne_true hf.symm
    rw [if_neg hcond, map_fst_jsMapSet, if_pos ((jsMapHas_iff k s.cache).mp hhas)]
  · unfold MemoryCache.set MemoryCache.updateAccessOrder
    dsimp only
    exact List.getLast?_concat _
  · intro e he hne
    unfold MemoryCache.get
    rw [he]
    dsimp only
    rw [if_neg hne]
    dsimp only
    unfold MemoryCache.updateAccessOrder
    rfl
  · unfold MemoryCache.set
    dsimp only
    by_cases hcond : s.maxSize ≤ s.cache.length ∧ jsMapHas k s.cache = false
    · rw [if_pos hcond]
      obtain ⟨hfull, _⟩ := hcond
      have heq : s.cache.length = s.maxSize := le_antisymm hlen hfull
      cases hacc : s.accessOrder with
      | nil =>
        exfalso
        have hpos : 0 < s.cache.length := by omega
        obtain ⟨kv, hkv⟩ := List.exists_mem_of_length_pos hpos
        have h2 := (hmem kv.1).mpr (List.mem_map_of_mem Prod.fst hkv)
        rw [hacc] at h2
        exact absurd h2 (List.not_mem_nil _)
      | cons lru rest =>
        unfold MemoryCache.evictLRU
        rw [hacc]
        dsimp only
        rw [length_jsMapSet]
        have hlru : lru ∈ s.cache.map Prod.fst :=
          (hmem lru).mp (by rw [hacc]; exact List.mem_cons_self lru rest)
        have hdel := length_jsMapDelete_mem lru s.cache hlru
        by_cases hk2 : k ∈ (jsMapDelete lru s.cache).map Prod.fst
        · rw [if_pos hk2]
          omega
        · rw [if_neg hk2]
          omega
    · rw [if_neg hcond, length_jsMapSet]
      by_cases hk2 : k ∈ s.cache.map Prod.fst
      · rw [if_pos hk2]
        exact hlen
      · rw [if_neg hk2]
        have hhf : jsMapHas k s.cache = false := by
          cases hb : jsMapHas k s.cache
          · rfl
          · exact absurd ((jsMapHas_iff k s.cache).mp hb) hk2
        have hlt : ¬s.maxSize ≤ s.cache.length := fun hle => hcond ⟨hle, hhf⟩
        omega

/-- C7 witness: writing a third distinct key into a full two-entry cache
evicts exactly the least-recently-used key `a`. -/
theorem memory_lru_eviction_witness :
    (MemoryCache.set 0 exCache7 "c" 3 5).cache.map Prod.fst
        = ((exCache7.cache.map Prod.fst).erase "a") ++ ["c"] ∧
    ((MemoryCache.set 0 exCache7 "c" 3 5).accessOrder).getLast? = some "c" ∧
    (MemoryCache.set 0 exCache7 "c" 3 5).cache.length ≤ exCache7.maxSize := by
  obtain ⟨hA, hB, hC, hD, hE⟩ :=
    memory_lru_eviction 0 exCache7 "c" 3 5 (by decide) (by decide)
      (fun x => Iff.rfl) (by decide)
  exact ⟨hA ⟨rfl, by decide⟩ "a" ["b"] rfl, hC, hE⟩

/-- C10: for a `CacheManager` whose config has `enabled = false`, `get`
returns null without touching the provider and `set` returns the provider
unchanged; but `delete`, `invalidate` and `clear` are not gated on the flag
and still mutate the provider: `delete` removes the key from the entry map
and the access order, `invalidate` removes every key matching the pattern,
and `clear` empties the store. -/
theorem cacheManager_disabled {V : Type} (now : ℚ) (m : CacheManager V)
    (k k2 : String) (v : V) (ty : Option TTLType) (pat : String)
    (hdis : m.config.enabled = false)
    (hnodup : (m.provider.cache.map Prod.fst).Nodup)
    (han : m.provider.accessOrder.Nodup) :
    CacheManager.get now m k = (none, m.provider) ∧
    CacheManager.set now m k v ty = m.provider ∧
    jsMapGet k (CacheManager.delete m k).cache = none ∧
    k ∉ (CacheManager.delete m k).accessOrder ∧
    (globMatch pat k2 = true →
      k2 ∉ (CacheManager.invalidate m pat).2.cache.map Prod.fst) ∧
    (CacheManager.clear m).cache = [] ∧
    (CacheManager.clear m).accessOrder = [] := by
  refine ⟨?_, ?_, ?_, ?_, ?_, rfl, rfl⟩
  · unfold CacheManager.get
    rw [if_pos hdis]
  · unfold CacheManager.set
    rw [if_pos hdis]
  · show jsMapGet k (jsMapDelete k m.provider.cache) = none
    rw [jsMapGet_eq_none_iff, map_fst_jsMapDelete]
    exact hnodup.not_mem_erase
  · show k ∉ m.provider.accessOrder.erase k
    exact han.not_mem_erase
  · intro hmatch
    show k2 ∉ (((m.provider.cache.map Prod.fst).filter
        (fun x => globMatch pat x)).foldl
        (fun c x => jsMapDelete x c) m.provider.cache).map Prod.fst
    rw [map_fst_foldl_jsMapDelete]
    by_cases hk2 : k2 ∈ m.provider.cache.map Prod.fst
    · exact not_mem_foldl_erase_of_mem k2 _ _ hnodup
        (List.mem_filter.mpr ⟨hk2, hmatch⟩)
    · exact not_mem_foldl_erase_of_not_mem k2 _ _ hk2

/-- C10 witness: the theorem applied to a disabled manager over a
one-entry provider. -/
theorem cacheManager_disabled_witness :
    CacheManager.get 0 exMgr10 "figma:file:X" = (none, exMgr10.provider) ∧
    CacheManager.set 0 exMgr10 "figma:file:X" 7 none = exMgr10.provider ∧
    jsMapGet "figma:file:X" (CacheManager.delete exMgr10 "figma:file:X").cache = none ∧
    "figma:file:X" ∉ (CacheManager.delete exMgr10 "figma:file:X").accessOrder ∧
    "figma:file:X" ∉ (CacheManager.invalidate exMgr10 "figma:*").2.cache.map Prod.fst ∧
    (CacheManager.clear exMgr10).cache = [] ∧
    (CacheManager.clear exMgr10).accessOrder = [] := by
  obtain ⟨h1, h2, h3, h4, h5, h6, h7⟩ :=
    cacheManager_disabled 0 exMgr10 "figma:file:X" "figma:file:X" 7 none "figma:*"
      rfl (by decide) (by decide)
  exact ⟨h1, h2, h3, h4, h5 (by simp [globMatch, globMatchAux]), h6, h7⟩
